import Mathlib

/-!
Verification of the NOR image editor (`src/uartcl/nor/patcher.py`) of the
`uart_cl` repository, as a shallow embedding in Lean 4.

Modelling conventions:
* A byte buffer (the `mmap` view of an image file) is modelled as an `MFile`:
  a size together with a total function `Nat → Nat` giving the byte at each
  index.  Only indices `< size` are meaningful; bytes are `Nat`s and
  well-formed images satisfy `byte < 256`.
* The filesystem is a partial map `String → Option MFile`.  `pathlib`'s
  `Path.resolve` equality is modelled as string equality of paths.
* Python exceptions are modelled by the `Err` enum:
  - `Err.imageNotFound`   = `FileNotFoundError` (opening a missing path);
  - `Err.invalidArgument` = `ValueError` raised by explicit argument
    validation in the mutators;
  - `Err.outOfRange`      = `ValueError` raised by `mmap` (seek past the end,
    write past the end, mapping an empty file);
  - `Err.encodeError`     = `UnicodeEncodeError` from `str.encode("latin1")`.
* CPython `mmap` semantics mirrored here: `seek(off)` fails iff `off > size`;
  `read(n)` returns `min n (size - off)` bytes; `write(b)` fails (writing
  nothing) iff `off + len b > size`; mapping a zero-length file fails.
* `bytes.find` / the `while` loop of `_replace_all` are modelled with an
  explicit fuel argument (`size + 1` is always enough, since the scan
  position strictly increases); on an empty pattern the Python loop would
  not terminate, a case no caller exercises.
* Python `str.lower` is modelled by ASCII lowercasing (`lower_char`), which
  agrees with CPython on all ASCII strings, in particular on every casing of
  the edition names.
-/

/-- Decidable equality for `Except`, so concrete runs of the embedded
functions can be checked by `decide`. -/
instance exceptDecEq {e a : Type} [DecidableEq e] [DecidableEq a] :
    DecidableEq (Except e a) := fun
  | .error x, .error y => decidable_of_iff (x = y) (by simp)
  | .error _, .ok _ => isFalse (by simp)
  | .ok _, .error _ => isFalse (by simp)
  | .ok x, .ok y => decidable_of_iff (x = y) (by simp)

/-- Error taxonomy standing for the Python exceptions raised by the patcher. -/
inductive Err where
  | imageNotFound
  | invalidArgument
  | outOfRange
  | encodeError
deriving DecidableEq, Repr

/-- A byte buffer of a given size; `data i` is the byte at index `i`
(only indices `< size` are meaningful). -/
structure MFile where
  size : Nat
  data : Nat → Nat

/-- The filesystem: a partial map from (resolved) paths to file contents. -/
def FS : Type := String → Option MFile

/-- Overwrite (or create) the file at path `p`. -/
def updateFS (fs : FS) (p : String) (f : MFile) : FS :=
  fun q => if q = p then some f else fs q

-- ---------------------------------------------------------------------------
-- Offsets & constants (patcher.py lines 24-46)
-- ---------------------------------------------------------------------------

def OFFSET_VERSION_1 : Nat := 0x1C7010
def OFFSET_VERSION_2 : Nat := 0x1C7030
def SERIAL_OFFSET    : Nat := 0x1C7210
def MOBO_SN_OFFSET   : Nat := 0x1C7200
def VARIANT_OFFSET   : Nat := 0x1C7226
def WIFI_MAC_OFFSET  : Nat := 0x1C73C0
def LAN_MAC_OFFSET   : Nat := 0x1C4020

def LEN_VERSION : Nat := 4
def LEN_SERIAL  : Nat := 17
def LEN_MOBO_SN : Nat := 16
def LEN_MODEL   : Nat := 19
def LEN_MAC     : Nat := 6

def FLAG_SLIM    : List Nat := [0x22, 0x01, 0x01, 0x01]
def FLAG_DISC    : List Nat := [0x22, 0x02, 0x01, 0x01]
def FLAG_DIGITAL : List Nat := [0x22, 0x03, 0x01, 0x01]

/-- The `EDITION_TO_FLAG` dict; Python dicts preserve insertion order, so
`values()` iterates slim, disc, digital. -/
def EDITION_TO_FLAG : List (String × List Nat) :=
  [("slim", FLAG_SLIM), ("disc", FLAG_DISC), ("digital", FLAG_DIGITAL)]

/-- Largest `offset + length` required by the field table
(`WIFI_MAC_OFFSET + LEN_MAC`). -/
def FIELD_TABLE_END : Nat := WIFI_MAC_OFFSET + LEN_MAC

-- ---------------------------------------------------------------------------
-- Byte-buffer primitives
-- ---------------------------------------------------------------------------

/-- The `n` bytes of `d` starting at `offset` (unchecked contiguous read). -/
def readList (d : Nat → Nat) (offset : Nat) : Nat → List Nat
  | 0 => []
  | n+1 => d offset :: readList d (offset+1) n

/-- Overlay `payload` onto `d` starting at `offset` (unchecked write, as a
bytearray slice assignment of equal length). -/
def writeAt (d : Nat → Nat) (offset : Nat) (payload : List Nat) : Nat → Nat :=
  fun j =>
    if offset ≤ j ∧ j < offset + payload.length then payload.getD (j - offset) 0
    else d j

/-- Source `_read` (lines 51-53): `mm.seek(offset)` raises `ValueError` iff
`offset > size`; `mm.read(length)` returns at most `size - offset` bytes. -/
def _read (f : MFile) (offset length : Nat) : Except Err (List Nat) :=
  if f.size < offset then .error .outOfRange
  else .ok (readList f.data offset (min length (f.size - offset)))

/-- Source `_write` (lines 92-94): `mm.write` raises `ValueError` (writing
nothing) iff the payload would extend past the end of the mapping. -/
def _write (f : MFile) (offset : Nat) (payload : List Nat) : Except Err MFile :=
  if f.size < offset + payload.length then .error .outOfRange
  else .ok ⟨f.size, writeAt f.data offset payload⟩

-- ---------------------------------------------------------------------------
-- Field codec helpers
-- ---------------------------------------------------------------------------

/-- Source `_ascii` (lines 55-57): strip trailing `0x00`/`0xFF` padding, then
decode as latin-1 (each byte maps to the code point of the same value, so
`errors="replace"` never fires on genuine bytes). -/
def _ascii (data : List Nat) : String :=
  ⟨((data.reverse.dropWhile (fun b => b == 0 || b == 255)).reverse).map
      (fun b => Char.ofNat b)⟩

/-- Uppercase hex digit of a value `< 16`. -/
def hexDigit (n : Nat) : Char :=
  if n < 10 then Char.ofNat (48 + n) else Char.ofNat (55 + n)

/-- Python `bytes.hex().upper()`: two uppercase hex digits per byte,
no separators. -/
def hexUpper (bs : List Nat) : String :=
  ⟨(bs.map (fun b => [hexDigit (b / 16), hexDigit (b % 16)])).flatten⟩

/-- Python `str.encode("latin1")`: each char must have code point `< 256`,
otherwise `UnicodeEncodeError`. -/
def encodeLatin1 (s : String) : Option (List Nat) :=
  if s.data.all (fun c => c.toNat < 256) then some (s.data.map Char.toNat)
  else none

/-- Python `bytes.ljust(n, fill)`. -/
def ljust (l : List Nat) (n : Nat) (fill : Nat) : List Nat :=
  l ++ List.replicate (n - l.length) fill

/-- ASCII lowercasing of one character; agrees with CPython `str.lower` on
ASCII characters (the only ones relevant to the edition names). -/
def lower_char (c : Char) : Char :=
  if 65 ≤ c.toNat ∧ c.toNat ≤ 90 then Char.ofNat (c.toNat + 32) else c

/-- Python `str.lower`, modelled for ASCII strings. -/
def str_lower (s : String) : String := ⟨s.data.map lower_char⟩

-- ---------------------------------------------------------------------------
-- Edition detector (lines 59-68)
-- ---------------------------------------------------------------------------

/-- Source `_detect_edition`: the `for off in (OFFSET_VERSION_1,
OFFSET_VERSION_2)` loop unrolled; a raised `ValueError` from `_read`
propagates. -/
def _detect_edition (f : MFile) : Except Err String :=
  match _read f OFFSET_VERSION_1 LEN_VERSION with
  | .error e => .error e
  | .ok flag =>
    if flag = FLAG_DIGITAL then .ok "digital"
    else if flag = FLAG_DISC then .ok "disc"
    else if flag = FLAG_SLIM then .ok "slim"
    else
      match _read f OFFSET_VERSION_2 LEN_VERSION with
      | .error e => .error e
      | .ok flag2 =>
        if flag2 = FLAG_DIGITAL then .ok "digital"
        else if flag2 = FLAG_DISC then .ok "disc"
        else if flag2 = FLAG_SLIM then .ok "slim"
        else .ok "unknown"

-- ---------------------------------------------------------------------------
-- Scanner (lines 70-81)
-- ---------------------------------------------------------------------------

/-- Source `scan_info`: opens the file read-only (`FileNotFoundError` if the
path is missing, `ValueError` if the file is empty, since `mmap` cannot map
an empty file), then builds the metadata dict in source order. -/
def scan_info (fs : FS) (path : String) : Except Err (List (String × String)) :=
  match fs path with
  | none => .error .imageNotFound
  | some f =>
    if f.size = 0 then .error .outOfRange
    else
      match _detect_edition f with
      | .error e => .error e
      | .ok ed =>
        match _read f SERIAL_OFFSET LEN_SERIAL with
        | .error e => .error e
        | .ok cs =>
          match _read f MOBO_SN_OFFSET LEN_MOBO_SN with
          | .error e => .error e
          | .ok ms =>
            match _read f VARIANT_OFFSET LEN_MODEL with
            | .error e => .error e
            | .ok mn =>
              match _read f WIFI_MAC_OFFSET LEN_MAC with
              | .error e => .error e
              | .ok wm =>
                match _read f LAN_MAC_OFFSET LEN_MAC with
                | .error e => .error e
                | .ok lm =>
                  .ok [("edition", ed),
                       ("console_serial", _ascii cs),
                       ("mobo_serial", _ascii ms),
                       ("model_number", _ascii mn),
                       ("wifi_mac", hexUpper wm),
                       ("lan_mac", hexUpper lm)]

/-- Convenience projection of one snapshot field (`none` on error). -/
def scanField (fs : FS) (path : String) (key : String) : Option String :=
  match scan_info fs path with
  | .error _ => none
  | .ok l => List.lookup key l

-- ---------------------------------------------------------------------------
-- Mutating helpers (lines 86-105)
-- ---------------------------------------------------------------------------

/-- The `pathlib.Path(dst) if dst else None` idiom of the public mutators:
an empty destination string is falsy and treated as absent. -/
def normDst : Option String → Option String
  | none => none
  | some s => if s = "" then none else some s

/-- Source `_ensure_target` (lines 86-90): if `dst` is absent or resolves to
`src`, operate in place; otherwise copy the source bytes to `dst`
(`FileNotFoundError` if `src` is missing) and operate there. -/
def _ensure_target (fs : FS) (src : String) (dst : Option String) :
    Except Err (FS × String) :=
  match dst with
  | none => .ok (fs, src)
  | some d =>
    if src = d then .ok (fs, src)
    else
      match fs src with
      | none => .error .imageNotFound
      | some f => .ok (updateFS fs d f, d)

/-- Path the mutators end up editing. -/
def targetPath (src : String) (dst : Option String) : String :=
  match normDst dst with
  | none => src
  | some d => d

/-- Whether the 4 bytes of `pat` occur at index `i` of `d`. -/
def matchAt (d : Nat → Nat) (pat : List Nat) (i : Nat) : Bool :=
  decide (readList d i pat.length = pat)

/-- Fuelled `bytes.find(pat, pos)`: leftmost `i ≥ pos` with a full in-bounds
match.  Fuel `size + 1 - pos` always suffices. -/
def bufFindGo (d : Nat → Nat) (size : Nat) (pat : List Nat) :
    Nat → Nat → Option Nat
  | 0, _ => none
  | fuel+1, pos =>
    if pos + pat.length ≤ size then
      if matchAt d pat pos then some pos
      else bufFindGo d size pat fuel (pos + 1)
    else none

/-- Python `bytes.find(pat, pos)` on a buffer of `size` bytes. -/
def bufFind (d : Nat → Nat) (size : Nat) (pat : List Nat) (pos : Nat) :
    Option Nat :=
  bufFindGo d size pat (size + 1 - pos) pos

/-- Fuelled body of the `while True` loop of `_replace_all` (lines 96-105):
find the leftmost occurrence at or after `pos`, overwrite it, resume
immediately after the replacement.  The source also counts replacements; the
count is discarded by the only caller and omitted here. -/
def _replace_all_go (size : Nat) (find repl : List Nat) :
    Nat → (Nat → Nat) → Nat → (Nat → Nat)
  | 0, d, _ => d
  | fuel+1, d, pos =>
    match bufFind d size find pos with
    | none => d
    | some i => _replace_all_go size find repl fuel (writeAt d i repl) (i + find.length)

/-- Source `_replace_all` on a buffer of `size` bytes.  For a non-empty
pattern the scan position strictly increases, so fuel `size + 1` is enough;
on an empty pattern the Python loop would never terminate. -/
def _replace_all (size : Nat) (d : Nat → Nat) (find repl : List Nat) :
    Nat → Nat :=
  _replace_all_go size find repl (size + 1) d 0

-- ---------------------------------------------------------------------------
-- Public API (lines 110-148)
-- ---------------------------------------------------------------------------

/-- The `for flag in EDITION_TO_FLAG.values()` sweep loop of
`convert_edition` (lines 124-129): replace every non-target flag pattern in
the whole buffer by the target pattern, one source pattern at a time, in
dict order. -/
def sweepBlob (size : Nat) (d : Nat → Nat) (target_flag : List Nat) : Nat → Nat :=
  (EDITION_TO_FLAG.map Prod.snd).foldl
    (fun bb flag =>
      if flag = target_flag then bb
      else _replace_all size bb flag target_flag) d

/-- Body of `convert_edition` after the destination is resolved (the
`with dst_p.open ... as mm` block, lines 116-130).  Writes that succeed are
immediately visible in the mapped file, so the filesystem is threaded
through every step. -/
def _convert_on (fs1 : FS) (tgt : String) (edition : String) : FS × Option Err :=
  let target_flag := (List.lookup (str_lower edition) EDITION_TO_FLAG).getD []
  match fs1 tgt with
  | none => (fs1, some .imageNotFound)
  | some f =>
    if f.size = 0 then (fs1, some .outOfRange)
    else
      match _detect_edition f with
      | .error e => (fs1, some e)
      | .ok current =>
        if current = str_lower edition then (fs1, none)
        else
          match _write f OFFSET_VERSION_1 target_flag with
          | .error e => (fs1, some e)
          | .ok f1 =>
            match _write f1 OFFSET_VERSION_2 target_flag with
            | .error e => (updateFS fs1 tgt f1, some e)
            | .ok f2 =>
              (updateFS fs1 tgt ⟨f2.size, sweepBlob f2.size f2.data target_flag⟩, none)

/-- Source `convert_edition` (lines 110-130). -/
def convert_edition (fs : FS) (src : String) (edition : String)
    (dst : Option String) : FS × Option Err :=
  if (List.lookup (str_lower edition) EDITION_TO_FLAG).isNone then
    (fs, some .invalidArgument)
  else
    match _ensure_target fs src (normDst dst) with
    | .error e => (fs, some e)
    | .ok (fs1, tgt) => _convert_on fs1 tgt edition

/-- Body of `set_console_serial` after validation, encoding and destination
resolution (lines 138-139). -/
def _set_console_on (fs1 : FS) (tgt : String) (serial_bytes : List Nat) :
    FS × Option Err :=
  match fs1 tgt with
  | none => (fs1, some .imageNotFound)
  | some f =>
    if f.size = 0 then (fs1, some .outOfRange)
    else
      match _write f SERIAL_OFFSET serial_bytes with
      | .error e => (fs1, some e)
      | .ok f2 => (updateFS fs1 tgt f2, none)

/-- Source `set_console_serial` (lines 132-139). -/
def set_console_serial (fs : FS) (src : String) (new_serial : String)
    (dst : Option String) : FS × Option Err :=
  if ¬(1 ≤ new_serial.length ∧ new_serial.length ≤ LEN_SERIAL) then
    (fs, some .invalidArgument)
  else
    match encodeLatin1 new_serial with
    | none => (fs, some .encodeError)
    | some bs =>
      let serial_bytes := ljust bs LEN_SERIAL 0
      match _ensure_target fs src (normDst dst) with
      | .error e => (fs, some e)
      | .ok (fs1, tgt) => _set_console_on fs1 tgt serial_bytes

/-- Body of `set_mobo_serial` after validation, encoding and destination
resolution (lines 147-148). -/
def _set_mobo_on (fs1 : FS) (tgt : String) (serial_bytes : List Nat) :
    FS × Option Err :=
  match fs1 tgt with
  | none => (fs1, some .imageNotFound)
  | some f =>
    if f.size = 0 then (fs1, some .outOfRange)
    else
      match _write f MOBO_SN_OFFSET serial_bytes with
      | .error e => (fs1, some e)
      | .ok f2 => (updateFS fs1 tgt f2, none)

/-- Source `set_mobo_serial` (lines 141-148). -/
def set_mobo_serial (fs : FS) (src : String) (new_serial : String)
    (dst : Option String) : FS × Option Err :=
  if ¬(1 ≤ new_serial.length ∧ new_serial.length ≤ LEN_MOBO_SN) then
    (fs, some .invalidArgument)
  else
    match encodeLatin1 new_serial with
    | none => (fs, some .encodeError)
    | some bs =>
      let serial_bytes := ljust bs LEN_MOBO_SN 0
      match _ensure_target fs src (normDst dst) with
      | .error e => (fs, some e)
      | .ok (fs1, tgt) => _set_mobo_on fs1 tgt serial_bytes

/-- Filesystem state after only the copy step of a mutator (no byte edits). -/
def copyFS (fs : FS) (src : String) (dst : Option String) (f : MFile) : FS :=
  match normDst dst with
  | none => fs
  | some d => if src = d then fs else updateFS fs d f

-- ---------------------------------------------------------------------------
-- Concrete sample images (for witnesses, counterexamples and scenarios)
-- ---------------------------------------------------------------------------

/-- Byte map of a disc-edition test image: disc flags at both canonical
offsets, console serial `"PS5TESTSERIAL123"`, Wi-Fi MAC `A1B2C3D4E5F6`,
all other bytes `0xFF` (NOR-erased). -/
def discData : Nat → Nat := fun i =>
  if i = 0x1C7010 then 0x22 else if i = 0x1C7011 then 0x02
  else if i = 0x1C7012 then 0x01 else if i = 0x1C7013 then 0x01
  else if i = 0x1C7030 then 0x22 else if i = 0x1C7031 then 0x02
  else if i = 0x1C7032 then 0x01 else if i = 0x1C7033 then 0x01
  else if i = 0x1C7210 then 80 else if i = 0x1C7211 then 83
  else if i = 0x1C7212 then 53 else if i = 0x1C7213 then 84
  else if i = 0x1C7214 then 69 else if i = 0x1C7215 then 83
  else if i = 0x1C7216 then 84 else if i = 0x1C7217 then 83
  else if i = 0x1C7218 then 69 else if i = 0x1C7219 then 82
  else if i = 0x1C721A then 73 else if i = 0x1C721B then 65
  else if i = 0x1C721C then 76 else if i = 0x1C721D then 49
  else if i = 0x1C721E then 50 else if i = 0x1C721F then 51
  else if i = 0x1C73C0 then 0xA1 else if i = 0x1C73C1 then 0xB2
  else if i = 0x1C73C2 then 0xC3 else if i = 0x1C73C3 then 0xD4
  else if i = 0x1C73C4 then 0xE5 else if i = 0x1C73C5 then 0xF6
  else 0xFF

/-- A disc-edition image exactly as large as the field table requires. -/
def imgDisc : MFile := ⟨0x1C73C6, discData⟩

/-- Filesystem holding only the disc test image. -/
def fsDisc : FS := fun p => if p = "nor.bin" then some imgDisc else none

/-- An all-`0xFF` image one byte shorter than the field table requires. -/
def imgShort : MFile := ⟨0x1C73C5, fun _ => 0xFF⟩

/-- Filesystem holding only the undersized image. -/
def fsShort : FS := fun p => if p = "nor.bin" then some imgShort else none

/-- A 100-byte image (far too small for any field). -/
def imgTiny : MFile := ⟨100, fun _ => 0xFF⟩

/-- Filesystem holding only the tiny image. -/
def fsTiny : FS := fun p => if p = "nor.bin" then some imgTiny else none

-- ---------------------------------------------------------------------------
-- Basic lemmas: readList / writeAt
-- ---------------------------------------------------------------------------

/-- Pattern `pat` occurs (in full) at index `i` of buffer `d`. -/
def occursAt (d : Nat → Nat) (i : Nat) (pat : List Nat) : Prop :=
  readList d i pat.length = pat

theorem readList_length (d : Nat → Nat) (offset n : Nat) :
    (readList d offset n).length = n := by
  induction n generalizing offset with
  | zero => rfl
  | succ n ih => simp [readList, ih]

theorem readList_congr (d d' : Nat → Nat) (offset n : Nat)
    (h : ∀ k, k < n → d (offset + k) = d' (offset + k)) :
    readList d offset n = readList d' offset n := by
  induction n generalizing offset with
  | zero => rfl
  | succ n ih =>
    simp only [readList, List.cons.injEq]
    constructor
    · have := h 0 (Nat.succ_pos n)
      simpa using this
    · apply ih
      intro k hk
      have := h (k + 1) (by omega)
      simpa [Nat.add_assoc, Nat.add_comm 1 k] using this

theorem writeAt_lt (d : Nat → Nat) (offset : Nat) (p : List Nat) (j : Nat)
    (h : j < offset) : writeAt d offset p j = d j := by
  simp only [writeAt]
  rw [if_neg]
  omega

theorem writeAt_ge (d : Nat → Nat) (offset : Nat) (p : List Nat) (j : Nat)
    (h : offset + p.length ≤ j) : writeAt d offset p j = d j := by
  simp only [writeAt]
  rw [if_neg]
  omega

theorem writeAt_in (d : Nat → Nat) (offset : Nat) (p : List Nat) (j : Nat)
    (h1 : offset ≤ j) (h2 : j < offset + p.length) :
    writeAt d offset p j = p.getD (j - offset) 0 := by
  simp only [writeAt]
  rw [if_pos ⟨h1, h2⟩]

theorem readList_writeAt_disjoint (d : Nat → Nat) (i : Nat) (repl : List Nat)
    (offset n : Nat) (h : offset + n ≤ i ∨ i + repl.length ≤ offset) :
    readList (writeAt d i repl) offset n = readList d offset n := by
  apply readList_congr
  intro k hk
  rcases h with h | h
  · exact writeAt_lt d i repl _ (by omega)
  · exact writeAt_ge d i repl _ (by omega)

theorem readList_writeAt_self (d : Nat → Nat) (offset : Nat) (p : List Nat) :
    readList (writeAt d offset p) offset p.length = p := by
  induction p generalizing d offset with
  | nil => rfl
  | cons a rest ih =>
    simp only [readList, List.length_cons, List.cons.injEq]
    constructor
    · rw [writeAt_in d offset (a :: rest) offset (Nat.le_refl _) (by simp)]
      simp
    · have hpt : ∀ j, offset + 1 ≤ j →
          writeAt d offset (a :: rest) j = writeAt d (offset + 1) rest j := by
        intro j hj
        simp only [writeAt, List.length_cons]
        rcases Nat.lt_or_ge j (offset + 1 + rest.length) with hlt | hge
        · rw [if_pos (by omega), if_pos (by omega)]
          have : j - offset = (j - (offset + 1)) + 1 := by omega
          rw [this]
          simp
        · rw [if_neg (by omega), if_neg (by omega)]
      calc readList (writeAt d offset (a :: rest)) (offset + 1) rest.length
          = readList (writeAt d (offset + 1) rest) (offset + 1) rest.length := by
            apply readList_congr
            intro k hk
            exact hpt _ (by omega)
        _ = rest := ih d (offset + 1)

-- ---------------------------------------------------------------------------
-- Occurrence lemmas for 4-byte edition flags
-- ---------------------------------------------------------------------------

theorem occursAt_four (d : Nat → Nat) (i a b c e : Nat) :
    occursAt d i [a, b, c, e] ↔
      d i = a ∧ d (i+1) = b ∧ d (i+2) = c ∧ d (i+3) = e := by
  show readList d i 4 = [a, b, c, e] ↔ _
  simp [readList, List.cons.injEq]

theorem occursAt_writeAt_self (d : Nat → Nat) (offset : Nat) (p : List Nat) :
    occursAt (writeAt d offset p) offset p :=
  readList_writeAt_self d offset p

theorem occursAt_writeAt_disjoint (d : Nat → Nat) (i : Nat) (repl : List Nat)
    (j : Nat) (pat : List Nat)
    (h : j + pat.length ≤ i ∨ i + repl.length ≤ j) :
    occursAt (writeAt d i repl) j pat ↔ occursAt d j pat := by
  unfold occursAt
  rw [readList_writeAt_disjoint d i repl j pat.length h]

theorem occursAt_unique (d : Nat → Nat) (i : Nat) (A B : List Nat)
    (hA : occursAt d i A) (hB : occursAt d i B) (hlen : A.length = B.length) :
    A = B := by
  unfold occursAt at hA hB
  rw [← hA, hlen, hB]

/-- Two flag-shaped occurrences (`22 xx 01 01` with `xx ∈ 1..3`) at distinct
positions never overlap: the byte `0x22` occurs only at index 0 of a flag. -/
theorem flags_no_overlap (d : Nat → Nat) (a b i j : Nat)
    (ha1 : 1 ≤ a) (ha3 : a ≤ 3) (hb1 : 1 ≤ b) (hb3 : b ≤ 3)
    (hA : occursAt d i [34, a, 1, 1]) (hB : occursAt d j [34, b, 1, 1])
    (hne : i ≠ j) : j + 4 ≤ i ∨ i + 4 ≤ j := by
  rw [occursAt_four] at hA hB
  obtain ⟨hA0, hA1, hA2, hA3⟩ := hA
  obtain ⟨hB0, hB1, hB2, hB3⟩ := hB
  by_contra hcon
  push_neg at hcon
  obtain ⟨hc1, hc2⟩ := hcon
  rcases Nat.lt_or_ge i j with hij | hij
  · have : j = i + 1 ∨ j = i + 2 ∨ j = i + 3 := by omega
    rcases this with rfl | rfl | rfl
    · rw [hA1] at hB0; omega
    · rw [hA2] at hB0; omega
    · rw [hA3] at hB0; omega
  · have : i = j + 1 ∨ i = j + 2 ∨ i = j + 3 := by omega
    rcases this with rfl | rfl | rfl
    · rw [hB1] at hA0; omega
    · rw [hB2] at hA0; omega
    · rw [hB3] at hA0; omega

/-- Overwriting a site with a flag pattern cannot create a flag-shaped
occurrence overlapping the written range, except the written flag itself. -/
theorem write_no_create (d : Nat → Nat) (t b i j : Nat)
    (ht1 : 1 ≤ t) (ht3 : t ≤ 3) (hb1 : 1 ≤ b) (hb3 : b ≤ 3)
    (hover1 : ¬(j + 4 ≤ i)) (hover2 : ¬(i + 4 ≤ j))
    (hocc : occursAt (writeAt d i [34, t, 1, 1]) j [34, b, 1, 1]) :
    j = i ∧ b = t := by
  have w0 : writeAt d i [34, t, 1, 1] i = 34 := by
    rw [writeAt_in d i [34, t, 1, 1] i (Nat.le_refl i) (by simp)]
    simp
  have w1 : writeAt d i [34, t, 1, 1] (i+1) = t := by
    rw [writeAt_in d i [34, t, 1, 1] (i+1) (by omega) (by simp)]
    simp
  have w2 : writeAt d i [34, t, 1, 1] (i+2) = 1 := by
    rw [writeAt_in d i [34, t, 1, 1] (i+2) (by omega) (by simp)]
    simp
  have w3 : writeAt d i [34, t, 1, 1] (i+3) = 1 := by
    rw [writeAt_in d i [34, t, 1, 1] (i+3) (by omega) (by simp)]
    simp
  rw [occursAt_four] at hocc
  obtain ⟨hB0, hB1, hB2, hB3⟩ := hocc
  rcases Nat.lt_trichotomy i j with hij | hij | hij
  · exfalso
    have : j = i + 1 ∨ j = i + 2 ∨ j = i + 3 := by omega
    rcases this with rfl | rfl | rfl
    · rw [w1] at hB0; omega
    · rw [w2] at hB0; omega
    · rw [w3] at hB0; omega
  · refine ⟨hij.symm, ?_⟩
    subst hij
    rw [w1] at hB1
    omega
  · exfalso
    have : i = j + 1 ∨ i = j + 2 ∨ i = j + 3 := by omega
    rcases this with h1 | h1
    · rw [← h1] at hB1
      rw [w0] at hB1; omega
    · rcases h1 with h1 | h1
      · rw [← h1] at hB2
        rw [w0] at hB2; omega
      · rw [← h1] at hB3
        rw [w0] at hB3; omega

-- ---------------------------------------------------------------------------
-- bufFind specification
-- ---------------------------------------------------------------------------

theorem matchAt_iff (d : Nat → Nat) (pat : List Nat) (i : Nat) :
    matchAt d pat i = true ↔ occursAt d i pat := by
  simp [matchAt, occursAt]

theorem bufFindGo_some (d : Nat → Nat) (size : Nat) (pat : List Nat) :
    ∀ fuel pos i, size + 1 - pos ≤ fuel →
      bufFindGo d size pat fuel pos = some i →
      pos ≤ i ∧ i + pat.length ≤ size ∧ occursAt d i pat ∧
        (∀ j, pos ≤ j → j < i → ¬ occursAt d j pat) := by
  intro fuel
  induction fuel with
  | zero => intro pos i _ h; simp [bufFindGo] at h
  | succ fuel ih =>
    intro pos i hfuel h
    simp only [bufFindGo] at h
    by_cases hin : pos + pat.length ≤ size
    · rw [if_pos hin] at h
      by_cases hm : matchAt d pat pos
      · rw [if_pos hm] at h
        injection h with h
        subst h
        exact ⟨Nat.le_refl _, hin, (matchAt_iff d pat pos).mp hm, by omega⟩
      · rw [if_neg hm] at h
        obtain ⟨h1, h2, h3, h4⟩ := ih (pos + 1) i (by omega) h
        refine ⟨by omega, h2, h3, ?_⟩
        intro j hj1 hj2
        rcases Nat.eq_or_lt_of_le hj1 with rfl | hlt
        · intro hocc
          exact hm ((matchAt_iff d pat pos).mpr hocc)
        · exact h4 j hlt hj2
    · rw [if_neg hin] at h
      simp at h

theorem bufFind_some (d : Nat → Nat) (size : Nat) (pat : List Nat)
    (pos i : Nat) (h : bufFind d size pat pos = some i) :
    pos ≤ i ∧ i + pat.length ≤ size ∧ occursAt d i pat ∧
      (∀ j, pos ≤ j → j < i → ¬ occursAt d j pat) :=
  bufFindGo_some d size pat (size + 1 - pos) pos i (Nat.le_refl _) h

theorem bufFindGo_none (d : Nat → Nat) (size : Nat) (pat : List Nat) :
    ∀ fuel pos, size + 1 - pos ≤ fuel →
      bufFindGo d size pat fuel pos = none →
      ∀ j, pos ≤ j → j + pat.length ≤ size → ¬ occursAt d j pat := by
  intro fuel
  induction fuel with
  | zero =>
    intro pos hfuel _ j hj1 hj2 _
    have : pat.length ≤ size := by omega
    omega
  | succ fuel ih =>
    intro pos hfuel h j hj1 hj2
    simp only [bufFindGo] at h
    by_cases hin : pos + pat.length ≤ size
    · rw [if_pos hin] at h
      by_cases hm : matchAt d pat pos
      · rw [if_pos hm] at h; simp at h
      · rw [if_neg hm] at h
        rcases Nat.eq_or_lt_of_le hj1 with rfl | hlt
        · intro hocc
          exact hm ((matchAt_iff d pat pos).mpr hocc)
        · exact ih (pos + 1) (by omega) h j hlt hj2
    · rw [if_neg hin] at h
      omega

theorem bufFind_none (d : Nat → Nat) (size : Nat) (pat : List Nat)
    (pos : Nat) (h : bufFind d size pat pos = none) :
    ∀ j, pos ≤ j → j + pat.length ≤ size → ¬ occursAt d j pat :=
  bufFindGo_none d size pat (size + 1 - pos) pos (Nat.le_refl _) h

-- ---------------------------------------------------------------------------
-- _replace_all specification (for 4-byte flag patterns)
-- ---------------------------------------------------------------------------

/-- Main loop invariant of `_replace_all` on flag patterns `22 aa 01 01` →
`22 tt 01 01` (`aa ≠ tt`, both in `1..3`): assuming no source occurrence
before `pos`, after the loop (i) no source occurrence remains anywhere in
bounds, (ii) occurrences of every other flag are preserved, and (iii) every
flag occurrence other than the replacement pattern already existed. -/
theorem replace_all_go_spec (size a t : Nat)
    (ha1 : 1 ≤ a) (ha3 : a ≤ 3) (ht1 : 1 ≤ t) (ht3 : t ≤ 3) (hat : a ≠ t) :
    ∀ fuel (d : Nat → Nat) pos, size + 1 - pos ≤ fuel →
      (∀ p, p + 4 ≤ size → p < pos → ¬ occursAt d p [34, a, 1, 1]) →
      (∀ p, p + 4 ≤ size →
        ¬ occursAt (_replace_all_go size [34, a, 1, 1] [34, t, 1, 1] fuel d pos)
            p [34, a, 1, 1]) ∧
      (∀ p b, 1 ≤ b → b ≤ 3 → b ≠ a → occursAt d p [34, b, 1, 1] →
        occursAt (_replace_all_go size [34, a, 1, 1] [34, t, 1, 1] fuel d pos)
            p [34, b, 1, 1]) ∧
      (∀ p b, 1 ≤ b → b ≤ 3 → b ≠ t →
        occursAt (_replace_all_go size [34, a, 1, 1] [34, t, 1, 1] fuel d pos)
            p [34, b, 1, 1] →
        occursAt d p [34, b, 1, 1]) := by
  intro fuel
  induction fuel with
  | zero =>
    intro d pos hfuel hinv
    simp only [_replace_all_go]
    refine ⟨?_, fun p b _ _ _ h => h, fun p b _ _ _ h => h⟩
    intro p hp
    exact hinv p hp (by omega)
  | succ fuel ih =>
    intro d pos hfuel hinv
    simp only [_replace_all_go]
    cases hfind : bufFind d size [34, a, 1, 1] pos with
    | none =>
      refine ⟨?_, fun p b _ _ _ h => h, fun p b _ _ _ h => h⟩
      intro p hp
      rcases Nat.lt_or_ge p pos with hlt | hge
      · exact hinv p hp hlt
      · exact bufFind_none d size [34, a, 1, 1] pos hfind p hge
          (by simpa using hp)
    | some i =>
      obtain ⟨hpos_i, hbound, hocc_i, hleft⟩ :=
        bufFind_some d size [34, a, 1, 1] pos i hfind
      simp only [List.length_cons, List.length_nil] at hbound
      have hw_self : occursAt (writeAt d i [34, t, 1, 1]) i [34, t, 1, 1] :=
        occursAt_writeAt_self d i [34, t, 1, 1]
      have hinv' : ∀ p, p + 4 ≤ size → p < i + 4 →
          ¬ occursAt (writeAt d i [34, t, 1, 1]) p [34, a, 1, 1] := by
        intro p hp hpi hocc
        by_cases hdisj : p + 4 ≤ i ∨ i + 4 ≤ p
        · have hd : occursAt d p [34, a, 1, 1] := by
            rw [occursAt_writeAt_disjoint d i [34, t, 1, 1] p [34, a, 1, 1]
              (by simpa using hdisj)] at hocc
            exact hocc
          rcases Nat.lt_or_ge p pos with hlt | hge
          · exact hinv p hp hlt hd
          · have hpi' : p < i := by omega
            exact hleft p hge hpi' hd
        · push_neg at hdisj
          obtain ⟨rfl, hbt⟩ := write_no_create d t a i p ht1 ht3 ha1 ha3
            (by omega) (by omega) hocc
          exact hat hbt
      obtain ⟨ha', hb', hc'⟩ := ih (writeAt d i [34, t, 1, 1]) (i + 4)
        (by omega) hinv'
      have hlen4 : (4 : Nat) = i + 4 - i := by omega
      refine ⟨?_, ?_, ?_⟩
      · intro p hp
        have := ha' p hp
        simpa using this
      · intro p b hb1 hb3 hba hocc
        have hwocc : occursAt (writeAt d i [34, t, 1, 1]) p [34, b, 1, 1] := by
          by_cases hpi : p = i
          · subst hpi
            have := occursAt_unique d p [34, a, 1, 1] [34, b, 1, 1] hocc_i hocc rfl
            simp only [List.cons.injEq] at this
            exact absurd this.2.1.symm hba
          · have hdisj := flags_no_overlap d a b i p ha1 ha3 hb1 hb3
              hocc_i hocc (fun h => hpi h.symm)
            rw [occursAt_writeAt_disjoint d i [34, t, 1, 1] p [34, b, 1, 1]
              (by simpa using hdisj)]
            exact hocc
        have := hb' p b hb1 hb3 hba hwocc
        simpa using this
      · intro p b hb1 hb3 hbt hocc
        have hwocc : occursAt (writeAt d i [34, t, 1, 1]) p [34, b, 1, 1] := by
          have := hc' p b hb1 hb3 hbt
          apply this
          simpa using hocc
        by_cases hdisj : p + 4 ≤ i ∨ i + 4 ≤ p
        · rw [occursAt_writeAt_disjoint d i [34, t, 1, 1] p [34, b, 1, 1]
            (by simpa using hdisj)] at hwocc
          exact hwocc
        · push_neg at hdisj
          obtain ⟨rfl, hbt'⟩ := write_no_create d t b i p ht1 ht3 hb1 hb3
            (by omega) (by omega) hwocc
          exact absurd hbt' hbt

/-- `_replace_all` on flag patterns: all source occurrences eliminated,
other flag occurrences preserved exactly. -/
theorem replace_all_spec (size : Nat) (d : Nat → Nat) (a t : Nat)
    (ha1 : 1 ≤ a) (ha3 : a ≤ 3) (ht1 : 1 ≤ t) (ht3 : t ≤ 3) (hat : a ≠ t) :
    (∀ p, p + 4 ≤ size →
      ¬ occursAt (_replace_all size d [34, a, 1, 1] [34, t, 1, 1]) p [34, a, 1, 1]) ∧
    (∀ p b, 1 ≤ b → b ≤ 3 → b ≠ a → occursAt d p [34, b, 1, 1] →
      occursAt (_replace_all size d [34, a, 1, 1] [34, t, 1, 1]) p [34, b, 1, 1]) ∧
    (∀ p b, 1 ≤ b → b ≤ 3 → b ≠ t →
      occursAt (_replace_all size d [34, a, 1, 1] [34, t, 1, 1]) p [34, b, 1, 1] →
      occursAt d p [34, b, 1, 1]) := by
  have h := replace_all_go_spec size a t ha1 ha3 ht1 ht3 hat (size + 1) d 0
    (by omega) (fun p _ h => absurd h (Nat.not_lt_zero p))
  simpa [_replace_all] using h

-- ---------------------------------------------------------------------------
-- Accessor and detector plumbing lemmas
-- ---------------------------------------------------------------------------

theorem _read_full (f : MFile) (offset n : Nat) (h : offset + n ≤ f.size) :
    _read f offset n = .ok (readList f.data offset n) := by
  unfold _read
  rw [if_neg (by omega)]
  have hmin : min n (f.size - offset) = n := by omega
  rw [hmin]

theorem _read_err (f : MFile) (offset n : Nat) (e : Err)
    (h : _read f offset n = .error e) : e = .outOfRange := by
  unfold _read at h
  by_cases hc : f.size < offset
  · rw [if_pos hc] at h
    injection h with h
    exact h.symm
  · rw [if_neg hc] at h
    exact absurd h (by simp)

theorem _write_ok (f : MFile) (offset : Nat) (payload : List Nat)
    (h : offset + payload.length ≤ f.size) :
    _write f offset payload = .ok ⟨f.size, writeAt f.data offset payload⟩ := by
  unfold _write
  rw [if_neg (by omega)]

theorem detect_ok (f : MFile) (h : OFFSET_VERSION_2 + LEN_VERSION ≤ f.size) :
    ∃ c, _detect_edition f = .ok c := by
  simp only [_detect_edition,
    _read_full f OFFSET_VERSION_1 LEN_VERSION
      (by simp only [OFFSET_VERSION_1, OFFSET_VERSION_2, LEN_VERSION] at *; omega),
    _read_full f OFFSET_VERSION_2 LEN_VERSION h]
  repeat' split
  all_goals exact ⟨_, rfl⟩

theorem detect_ok_size (f : MFile) (c : String)
    (h : _detect_edition f = .ok c) : OFFSET_VERSION_1 ≤ f.size := by
  by_contra hc
  push_neg at hc
  unfold _detect_edition _read at h
  rw [if_pos hc] at h
  exact absurd h (by simp)

theorem detect_err (f : MFile) (e : Err)
    (h : _detect_edition f = .error e) : e = .outOfRange := by
  unfold _detect_edition at h
  repeat' split at h
  all_goals try (exact Except.noConfusion h)
  all_goals (injection h with h; subst h; exact _read_err f _ _ _ (by assumption))

/-- The detector only looks at the two flag windows (and the size). -/
theorem detect_congr (f f' : MFile) (hsz : f.size = f'.size)
    (h1 : readList f.data OFFSET_VERSION_1 LEN_VERSION =
          readList f'.data OFFSET_VERSION_1 LEN_VERSION)
    (h2 : readList f.data OFFSET_VERSION_2 LEN_VERSION =
          readList f'.data OFFSET_VERSION_2 LEN_VERSION)
    (hsize : OFFSET_VERSION_2 + LEN_VERSION ≤ f.size) :
    _detect_edition f = _detect_edition f' := by
  unfold _detect_edition
  rw [_read_full f OFFSET_VERSION_1 LEN_VERSION
      (by simp only [OFFSET_VERSION_1, OFFSET_VERSION_2, LEN_VERSION] at *; omega),
    _read_full f OFFSET_VERSION_2 LEN_VERSION hsize,
    _read_full f' OFFSET_VERSION_1 LEN_VERSION
      (by simp only [OFFSET_VERSION_1, OFFSET_VERSION_2, LEN_VERSION] at *; omega),
    _read_full f' OFFSET_VERSION_2 LEN_VERSION (by omega),
    h1, h2]

/-- Resolving the destination always succeeds when the source exists, and
the resolved target then holds the source bytes. -/
theorem ensure_target_ok (fs : FS) (src : String) (dst : Option String)
    (f : MFile) (hsrc : fs src = some f) :
    _ensure_target fs src (normDst dst) = .ok (copyFS fs src dst f, targetPath src dst) ∧
    (copyFS fs src dst f) (targetPath src dst) = some f := by
  cases hn : normDst dst with
  | none =>
    simp only [_ensure_target, copyFS, targetPath, hn]
    exact ⟨trivial, hsrc⟩
  | some d =>
    by_cases hsd : src = d
    · subst hsd
      simp only [_ensure_target, copyFS, targetPath, hn, if_pos rfl]
      exact ⟨by simp, hsrc⟩
    · simp only [_ensure_target, copyFS, targetPath, hn, if_neg hsd, hsrc,
        updateFS, if_pos rfl]
      exact ⟨trivial, by simp⟩

/-- Composing the two sweep passes of `convert_edition`: both non-target
flags are eliminated and target-flag occurrences survive both passes. -/
theorem sweep_two (size : Nat) (d : Nat → Nat) (a1 a2 t : Nat)
    (h11 : 1 ≤ a1) (h13 : a1 ≤ 3) (h21 : 1 ≤ a2) (h23 : a2 ≤ 3)
    (ht1 : 1 ≤ t) (ht3 : t ≤ 3) (h1t : a1 ≠ t) (h2t : a2 ≠ t)
    (hO1 : occursAt d OFFSET_VERSION_1 [34, t, 1, 1])
    (hO2 : occursAt d OFFSET_VERSION_2 [34, t, 1, 1]) :
    (∀ p, p + 4 ≤ size →
      ¬ occursAt (_replace_all size (_replace_all size d [34, a1, 1, 1] [34, t, 1, 1])
          [34, a2, 1, 1] [34, t, 1, 1]) p [34, a1, 1, 1]) ∧
    (∀ p, p + 4 ≤ size →
      ¬ occursAt (_replace_all size (_replace_all size d [34, a1, 1, 1] [34, t, 1, 1])
          [34, a2, 1, 1] [34, t, 1, 1]) p [34, a2, 1, 1]) ∧
    occursAt (_replace_all size (_replace_all size d [34, a1, 1, 1] [34, t, 1, 1])
        [34, a2, 1, 1] [34, t, 1, 1]) OFFSET_VERSION_1 [34, t, 1, 1] ∧
    occursAt (_replace_all size (_replace_all size d [34, a1, 1, 1] [34, t, 1, 1])
        [34, a2, 1, 1] [34, t, 1, 1]) OFFSET_VERSION_2 [34, t, 1, 1] := by
  obtain ⟨A1, B1, C1⟩ := replace_all_spec size d a1 t h11 h13 ht1 ht3 h1t
  obtain ⟨A2, B2, C2⟩ := replace_all_spec size
    (_replace_all size d [34, a1, 1, 1] [34, t, 1, 1]) a2 t h21 h23 ht1 ht3 h2t
  refine ⟨?_, A2, ?_, ?_⟩
  · intro p hp hocc
    exact A1 p hp (C2 p a1 h11 h13 h1t hocc)
  · exact B2 OFFSET_VERSION_1 t ht1 ht3 (Ne.symm h2t)
      (B1 OFFSET_VERSION_1 t ht1 ht3 (Ne.symm h1t) hO1)
  · exact B2 OFFSET_VERSION_2 t ht1 ht3 (Ne.symm h2t)
      (B1 OFFSET_VERSION_2 t ht1 ht3 (Ne.symm h1t) hO2)

/-- Behaviour of the opened-file body of `convert_edition` when the image is
large enough and the detected edition differs from the target. -/
theorem convert_on_ok (fs1 : FS) (tgt edition : String) (f : MFile)
    (tf : List Nat) (htgt : fs1 tgt = some f)
    (hlook : List.lookup (str_lower edition) EDITION_TO_FLAG = some tf)
    (hlen : tf.length = 4)
    (hsize : OFFSET_VERSION_2 + 4 ≤ f.size)
    (c : String) (hc : _detect_edition f = .ok c)
    (hcne : c ≠ str_lower edition) :
    _convert_on fs1 tgt edition =
      (updateFS fs1 tgt
        ⟨f.size, sweepBlob f.size
            (writeAt (writeAt f.data OFFSET_VERSION_1 tf) OFFSET_VERSION_2 tf)
            tf⟩,
       none) := by
  have hsz0 : ¬(f.size = 0) := by
    simp only [OFFSET_VERSION_2] at hsize
    omega
  have hn1 : OFFSET_VERSION_1 + tf.length ≤ f.size := by
    simp only [OFFSET_VERSION_1, OFFSET_VERSION_2] at *
    omega
  have hn2 : OFFSET_VERSION_2 + tf.length ≤ f.size := by
    rw [hlen]
    exact hsize
  have hn2' : OFFSET_VERSION_2 + tf.length ≤
      (⟨f.size, writeAt f.data OFFSET_VERSION_1 tf⟩ : MFile).size := hn2
  simp only [_convert_on, htgt, hlook, Option.getD_some, hc, hsz0, hcne,
    if_false, _write_ok f OFFSET_VERSION_1 tf hn1,
    _write_ok ⟨f.size, writeAt f.data OFFSET_VERSION_1 tf⟩ OFFSET_VERSION_2 tf hn2']

/-- Generic single-edition case of the `convert_edition` sweep theorem:
parameters `a1, a2` are the second bytes of the two non-target flags in
dict order and `t` that of the target flag. -/
theorem convert_case (fs : FS) (src edition : String) (dst : Option String)
    (f : MFile) (tf : List Nat) (a1 a2 t : Nat)
    (hsrc : fs src = some f)
    (hlow : str_lower edition = edition)
    (hlook : List.lookup edition EDITION_TO_FLAG = some tf)
    (htf : tf = [34, t, 1, 1])
    (hflags : ∀ pat, pat ∈ EDITION_TO_FLAG.map Prod.snd → pat ≠ tf →
      pat = [34, a1, 1, 1] ∨ pat = [34, a2, 1, 1])
    (hsweep : ∀ size d, sweepBlob size d tf =
      _replace_all size (_replace_all size d [34, a1, 1, 1] [34, t, 1, 1])
        [34, a2, 1, 1] [34, t, 1, 1])
    (h11 : 1 ≤ a1) (h13 : a1 ≤ 3) (h21 : 1 ≤ a2) (h23 : a2 ≤ 3)
    (ht1 : 1 ≤ t) (ht3 : t ≤ 3) (h1t : a1 ≠ t) (h2t : a2 ≠ t)
    (hsize : FIELD_TABLE_END ≤ f.size)
    (hcur : _detect_edition f ≠ .ok edition) :
    ∃ f', convert_edition fs src edition dst =
        (updateFS (copyFS fs src dst f) (targetPath src dst) f', none) ∧
      f'.size = f.size ∧
      (∀ pat, pat ∈ EDITION_TO_FLAG.map Prod.snd → pat ≠ tf →
        ∀ p, p + 4 ≤ f'.size → ¬ occursAt f'.data p pat) ∧
      occursAt f'.data OFFSET_VERSION_1 tf ∧
      occursAt f'.data OFFSET_VERSION_2 tf := by
  subst htf
  obtain ⟨hens, htgt⟩ := ensure_target_ok fs src dst f hsrc
  have hb2 : OFFSET_VERSION_2 + 4 ≤ f.size := by
    simp only [OFFSET_VERSION_2, FIELD_TABLE_END, WIFI_MAC_OFFSET, LEN_MAC] at *
    omega
  obtain ⟨c, hc⟩ := detect_ok f (by simpa [LEN_VERSION] using hb2)
  have hcne : c ≠ str_lower edition := by
    rw [hlow]
    intro h
    exact hcur (by rw [hc, h])
  have hco := convert_on_ok (copyFS fs src dst f) (targetPath src dst) edition f
    [34, t, 1, 1] htgt (by rw [hlow]; exact hlook) rfl hb2 c hc hcne
  have hd2wO2 : occursAt
      (writeAt (writeAt f.data OFFSET_VERSION_1 [34, t, 1, 1])
        OFFSET_VERSION_2 [34, t, 1, 1]) OFFSET_VERSION_2 [34, t, 1, 1] :=
    occursAt_writeAt_self _ OFFSET_VERSION_2 _
  have hd2wO1 : occursAt
      (writeAt (writeAt f.data OFFSET_VERSION_1 [34, t, 1, 1])
        OFFSET_VERSION_2 [34, t, 1, 1]) OFFSET_VERSION_1 [34, t, 1, 1] := by
    rw [occursAt_writeAt_disjoint _ OFFSET_VERSION_2 [34, t, 1, 1]
      OFFSET_VERSION_1 [34, t, 1, 1]
      (Or.inl (by norm_num [OFFSET_VERSION_1, OFFSET_VERSION_2]))]
    exact occursAt_writeAt_self f.data OFFSET_VERSION_1 [34, t, 1, 1]
  obtain ⟨SA, SB, SO1, SO2⟩ := sweep_two f.size
    (writeAt (writeAt f.data OFFSET_VERSION_1 [34, t, 1, 1])
      OFFSET_VERSION_2 [34, t, 1, 1]) a1 a2 t
    h11 h13 h21 h23 ht1 ht3 h1t h2t hd2wO1 hd2wO2
  refine ⟨⟨f.size, sweepBlob f.size
      (writeAt (writeAt f.data OFFSET_VERSION_1 [34, t, 1, 1])
        OFFSET_VERSION_2 [34, t, 1, 1]) [34, t, 1, 1]⟩, ?_, rfl, ?_, ?_, ?_⟩
  · simp only [convert_edition, hlow, hlook, Option.isNone_some,
      Bool.false_eq_true, if_false, hens]
    exact hco
  · intro pat hmem hne p hp
    rcases hflags pat hmem hne with rfl | rfl
    · have := SA p hp
      rw [hsweep]
      exact this
    · have := SB p hp
      rw [hsweep]
      exact this
  · show occursAt (sweepBlob f.size _ [34, t, 1, 1]) OFFSET_VERSION_1 [34, t, 1, 1]
    rw [hsweep]
    exact SO1
  · show occursAt (sweepBlob f.size _ [34, t, 1, 1]) OFFSET_VERSION_2 [34, t, 1, 1]
    rw [hsweep]
    exact SO2

/-- C1: for every image at least as large as the field table requires and
every target edition in slim/disc/digital whose flag differs from the
detected edition, `convert_edition` succeeds; in the resulting file no
occurrence of either non-target edition flag remains anywhere in bounds,
and both canonical flag offsets hold the target 4-byte pattern.  The sweep
itself is the leftmost-first, resume-after-replacement single pass per
source pattern embodied by `_replace_all` / `sweepBlob` (specified by
`bufFind_some` and `replace_all_go_spec`). -/
theorem convert_edition_sweep (fs : FS) (src edition : String)
    (dst : Option String) (f : MFile)
    (hsrc : fs src = some f)
    (hed : edition = "slim" ∨ edition = "disc" ∨ edition = "digital")
    (hsize : FIELD_TABLE_END ≤ f.size)
    (hcur : _detect_edition f ≠ .ok edition) :
    ∃ f', convert_edition fs src edition dst =
        (updateFS (copyFS fs src dst f) (targetPath src dst) f', none) ∧
      f'.size = f.size ∧
      (∀ pat, pat ∈ EDITION_TO_FLAG.map Prod.snd →
        pat ≠ (List.lookup edition EDITION_TO_FLAG).getD [] →
        ∀ p, p + 4 ≤ f'.size → ¬ occursAt f'.data p pat) ∧
      occursAt f'.data OFFSET_VERSION_1
        ((List.lookup edition EDITION_TO_FLAG).getD []) ∧
      occursAt f'.data OFFSET_VERSION_2
        ((List.lookup edition EDITION_TO_FLAG).getD []) := by
  rcases hed with rfl | rfl | rfl
  · have hg : (List.lookup "slim" EDITION_TO_FLAG).getD ([] : List Nat) =
        [34, 1, 1, 1] := by decide
    simp only [hg]
    exact convert_case fs src "slim" dst f [34, 1, 1, 1] 2 3 1 hsrc (by decide)
      (by decide) rfl (by decide)
      (by
        intro size d
        simp [sweepBlob, EDITION_TO_FLAG, FLAG_SLIM, FLAG_DISC, FLAG_DIGITAL])
      (by decide) (by decide) (by decide) (by decide) (by decide) (by decide)
      (by decide) (by decide) hsize hcur
  · have hg : (List.lookup "disc" EDITION_TO_FLAG).getD ([] : List Nat) =
        [34, 2, 1, 1] := by decide
    simp only [hg]
    exact convert_case fs src "disc" dst f [34, 2, 1, 1] 1 3 2 hsrc (by decide)
      (by decide) rfl (by decide)
      (by
        intro size d
        simp [sweepBlob, EDITION_TO_FLAG, FLAG_SLIM, FLAG_DISC, FLAG_DIGITAL])
      (by decide) (by decide) (by decide) (by decide) (by decide) (by decide)
      (by decide) (by decide) hsize hcur
  · have hg : (List.lookup "digital" EDITION_TO_FLAG).getD ([] : List Nat) =
        [34, 3, 1, 1] := by decide
    simp only [hg]
    exact convert_case fs src "digital" dst f [34, 3, 1, 1] 1 2 3 hsrc (by decide)
      (by decide) rfl (by decide)
      (by
        intro size d
        simp [sweepBlob, EDITION_TO_FLAG, FLAG_SLIM, FLAG_DISC, FLAG_DIGITAL])
      (by decide) (by decide) (by decide) (by decide) (by decide) (by decide)
      (by decide) (by decide) hsize hcur

/-- Witness for C1: converting the concrete disc image to digital. -/
theorem convert_edition_sweep_witness :
    fsDisc "nor.bin" = some imgDisc ∧
    FIELD_TABLE_END ≤ imgDisc.size ∧
    _detect_edition imgDisc ≠ Except.ok "digital" ∧
    (∃ f', convert_edition fsDisc "nor.bin" "digital" none =
        (updateFS (copyFS fsDisc "nor.bin" none imgDisc)
          (targetPath "nor.bin" none) f', none) ∧
      f'.size = imgDisc.size ∧
      (∀ pat, pat ∈ EDITION_TO_FLAG.map Prod.snd →
        pat ≠ (List.lookup "digital" EDITION_TO_FLAG).getD [] →
        ∀ p, p + 4 ≤ f'.size → ¬ occursAt f'.data p pat) ∧
      occursAt f'.data OFFSET_VERSION_1
        ((List.lookup "digital" EDITION_TO_FLAG).getD []) ∧
      occursAt f'.data OFFSET_VERSION_2
        ((List.lookup "digital" EDITION_TO_FLAG).getD [])) :=
  ⟨by simp [fsDisc], by decide, by decide,
   convert_edition_sweep fsDisc "nor.bin" "digital" none imgDisc
     (by simp [fsDisc]) (Or.inr (Or.inr rfl)) (by decide) (by decide)⟩

-- ---------------------------------------------------------------------------
-- C2: scan_info on undersized images
-- ---------------------------------------------------------------------------

theorem _read_ok_of_le (f : MFile) (offset n : Nat) (h : offset ≤ f.size) :
    ∃ l, _read f offset n = .ok l := by
  unfold _read
  rw [if_neg (by omega)]
  exact ⟨_, rfl⟩

/-- Counterexample to C2: on an all-`0xFF` image one byte shorter than the
field table requires, `scan_info` does not fail at all — it returns a
snapshot (with a truncated `wifi_mac`), because the accessor only fails when
a field's start offset exceeds the file size. -/
theorem scan_info_short_counterexample :
    fsShort "nor.bin" = some imgShort ∧
    imgShort.size < FIELD_TABLE_END ∧
    scan_info fsShort "nor.bin" =
      Except.ok [("edition", "unknown"), ("console_serial", ""),
        ("mobo_serial", ""), ("model_number", ""),
        ("wifi_mac", "FFFFFFFFFF"), ("lan_mac", "FFFFFFFFFFFF")] :=
  ⟨by simp [fsShort], by decide, by decide⟩

/-- C2 amended: `scan_info` fails (with the accessor's out-of-range
`ValueError`, not a dedicated `ImageTooSmall` check) exactly when the image
is shorter than the largest field start offset `0x1C73C0` (`WIFI_MAC_OFFSET`);
an image of length in `[0x1C73C0, 0x1C73C6)` still yields a snapshot. -/
theorem scan_info_undersized :
    (∀ (fs : FS) (path : String) (f : MFile), fs path = some f →
      f.size < WIFI_MAC_OFFSET → scan_info fs path = .error .outOfRange) ∧
    (∀ (fs : FS) (path : String) (f : MFile), fs path = some f →
      WIFI_MAC_OFFSET ≤ f.size → ∃ l, scan_info fs path = .ok l) := by
  constructor
  · intro fs path f hf hsz
    simp only [scan_info, hf]
    by_cases h0 : f.size = 0
    · rw [if_pos h0]
    · rw [if_neg h0]
      have hwifi : _read f WIFI_MAC_OFFSET LEN_MAC = .error .outOfRange := by
        unfold _read
        rw [if_pos hsz]
      cases hdet : _detect_edition f with
      | error e =>
        have := detect_err f e hdet
        subst this
        rfl
      | ok ed =>
        cases hcs : _read f SERIAL_OFFSET LEN_SERIAL with
        | error e =>
          have := _read_err f _ _ _ hcs
          subst this
          rfl
        | ok cs =>
          cases hms : _read f MOBO_SN_OFFSET LEN_MOBO_SN with
          | error e =>
            have := _read_err f _ _ _ hms
            subst this
            rfl
          | ok ms =>
            cases hmn : _read f VARIANT_OFFSET LEN_MODEL with
            | error e =>
              have := _read_err f _ _ _ hmn
              subst this
              rfl
            | ok mn =>
              simp only [hwifi]
  · intro fs path f hf hsz
    have hb : OFFSET_VERSION_2 + LEN_VERSION ≤ f.size := by
      simp only [OFFSET_VERSION_2, LEN_VERSION, WIFI_MAC_OFFSET] at *
      omega
    obtain ⟨ed, hdet⟩ := detect_ok f hb
    obtain ⟨cs, hcs⟩ := _read_ok_of_le f SERIAL_OFFSET LEN_SERIAL
      (by simp only [SERIAL_OFFSET, WIFI_MAC_OFFSET] at *; omega)
    obtain ⟨ms, hms⟩ := _read_ok_of_le f MOBO_SN_OFFSET LEN_MOBO_SN
      (by simp only [MOBO_SN_OFFSET, WIFI_MAC_OFFSET] at *; omega)
    obtain ⟨mn, hmn⟩ := _read_ok_of_le f VARIANT_OFFSET LEN_MODEL
      (by simp only [VARIANT_OFFSET, WIFI_MAC_OFFSET] at *; omega)
    obtain ⟨wm, hwm⟩ := _read_ok_of_le f WIFI_MAC_OFFSET LEN_MAC hsz
    obtain ⟨lm, hlm⟩ := _read_ok_of_le f LAN_MAC_OFFSET LEN_MAC
      (by simp only [LAN_MAC_OFFSET, WIFI_MAC_OFFSET] at *; omega)
    have h0 : ¬(f.size = 0) := by
      simp only [WIFI_MAC_OFFSET] at hsz
      omega
    simp only [scan_info, hf, h0, if_false, hdet, hcs, hms, hmn, hwm, hlm]
    exact ⟨_, rfl⟩

/-- Witness for the amended C2 at concrete undersized images: a 100-byte
image fails with the out-of-range error, while the image one byte short of
the field table still scans. -/
theorem scan_info_undersized_witness :
    fsTiny "nor.bin" = some imgTiny ∧ imgTiny.size < WIFI_MAC_OFFSET ∧
    scan_info fsTiny "nor.bin" = .error .outOfRange ∧
    fsShort "nor.bin" = some imgShort ∧ WIFI_MAC_OFFSET ≤ imgShort.size ∧
    (∃ l, scan_info fsShort "nor.bin" = .ok l) :=
  ⟨by simp [fsTiny], by decide,
   scan_info_undersized.1 fsTiny "nor.bin" imgTiny (by simp [fsTiny]) (by decide),
   by simp [fsShort], by decide,
   scan_info_undersized.2 fsShort "nor.bin" imgShort (by simp [fsShort]) (by decide)⟩

-- ---------------------------------------------------------------------------
-- C3: scan_info snapshot shape
-- ---------------------------------------------------------------------------

/-- An uppercase hexadecimal digit character (`0-9` or `A-F`). -/
def isUpperHexChar (c : Char) : Prop :=
  (48 ≤ c.toNat ∧ c.toNat ≤ 57) ∨ (65 ≤ c.toNat ∧ c.toNat ≤ 70)

theorem char_toNat_ofNat (n : Nat) (h : n < 55296) :
    (Char.ofNat n).toNat = n := by
  unfold Char.ofNat
  rw [dif_pos (Or.inl h)]
  rfl

theorem hexDigit_upperHex (n : Nat) (h : n < 16) :
    isUpperHexChar (hexDigit n) := by
  unfold hexDigit isUpperHexChar
  by_cases h10 : n < 10
  · rw [if_pos h10]
    left
    rw [char_toNat_ofNat (48 + n) (by omega)]
    omega
  · rw [if_neg h10]
    right
    rw [char_toNat_ofNat (55 + n) (by omega)]
    omega

theorem hexUpper_length (bs : List Nat) :
    (hexUpper bs).length = 2 * bs.length := by
  induction bs with
  | nil => rfl
  | cons b rest ih =>
    simp only [hexUpper, String.length] at *
    simp only [List.map_cons, List.flatten_cons, List.length_append,
      List.length_cons, List.length_nil] at *
    omega

theorem hexUpper_chars (bs : List Nat) (hb : ∀ b ∈ bs, b < 256) :
    ∀ c ∈ (hexUpper bs).data, isUpperHexChar c := by
  intro c hc
  simp only [hexUpper] at hc
  rw [List.mem_flatten] at hc
  obtain ⟨l, hl, hcl⟩ := hc
  rw [List.mem_map] at hl
  obtain ⟨b, hbmem, rfl⟩ := hl
  have hb256 := hb b hbmem
  simp only [List.mem_cons, List.mem_singleton] at hcl
  rcases hcl with rfl | rfl | h
  · exact hexDigit_upperHex _ (by omega)
  · exact hexDigit_upperHex _ (by omega)
  · exact absurd h (List.not_mem_nil c)

theorem readList_mem (d : Nat → Nat) (offset n : Nat) (b : Nat)
    (h : b ∈ readList d offset n) : ∃ k, k < n ∧ b = d (offset + k) := by
  induction n generalizing offset with
  | zero => simp [readList] at h
  | succ n ih =>
    simp only [readList, List.mem_cons] at h
    rcases h with rfl | h
    · exact ⟨0, by omega, by simp⟩
    · obtain ⟨k, hk, rfl⟩ := ih (offset + 1) h
      exact ⟨k + 1, by omega, by rw [Nat.add_assoc, Nat.add_comm 1 k]⟩

theorem ite_lt (c : Prop) [Decidable c] (a b n : Nat) (ha : a < n)
    (hb : b < n) : (if c then a else b) < n := by
  by_cases h : c
  · rw [if_pos h]
    exact ha
  · rw [if_neg h]
    exact hb

/-- On a full-size image, `scan_info` returns exactly the six-field snapshot
computed from the field table. -/
theorem scan_info_big (fs : FS) (path : String) (f : MFile) (ed : String)
    (hf : fs path = some f) (hsz : FIELD_TABLE_END ≤ f.size)
    (hdet : _detect_edition f = .ok ed) :
    scan_info fs path = .ok
      [("edition", ed),
       ("console_serial", _ascii (readList f.data SERIAL_OFFSET LEN_SERIAL)),
       ("mobo_serial", _ascii (readList f.data MOBO_SN_OFFSET LEN_MOBO_SN)),
       ("model_number", _ascii (readList f.data VARIANT_OFFSET LEN_MODEL)),
       ("wifi_mac", hexUpper (readList f.data WIFI_MAC_OFFSET LEN_MAC)),
       ("lan_mac", hexUpper (readList f.data LAN_MAC_OFFSET LEN_MAC))] := by
  have hsz' : FIELD_TABLE_END ≤ f.size := hsz
  simp only [FIELD_TABLE_END, WIFI_MAC_OFFSET, LEN_MAC] at hsz'
  have h0 : ¬(f.size = 0) := by omega
  simp only [scan_info, hf, h0, if_false, hdet,
    _read_full f SERIAL_OFFSET LEN_SERIAL
      (by simp only [SERIAL_OFFSET, LEN_SERIAL]; omega),
    _read_full f MOBO_SN_OFFSET LEN_MOBO_SN
      (by simp only [MOBO_SN_OFFSET, LEN_MOBO_SN]; omega),
    _read_full f VARIANT_OFFSET LEN_MODEL
      (by simp only [VARIANT_OFFSET, LEN_MODEL]; omega),
    _read_full f WIFI_MAC_OFFSET LEN_MAC
      (by simp only [WIFI_MAC_OFFSET, LEN_MAC]; omega),
    _read_full f LAN_MAC_OFFSET LEN_MAC
      (by simp only [LAN_MAC_OFFSET, LEN_MAC]; omega)]

/-- C3: on every sufficiently large well-formed image, `scan_info` returns a
mapping with exactly the six documented keys; the MAC fields are 12-character
uppercase-hex strings decoded from their 6-byte fields, the string fields are
the padding-stripped bytes of their ranges, and `edition` is the detector's
classification.  In particular the concrete disc test image yields
`edition="disc"`, `console_serial="PS5TESTSERIAL123"`,
`wifi_mac="A1B2C3D4E5F6"`. -/
theorem scan_info_shape :
    (∀ (fs : FS) (path : String) (f : MFile) (ed : String),
      fs path = some f → FIELD_TABLE_END ≤ f.size →
      (∀ i, f.data i < 256) → _detect_edition f = .ok ed →
      ∃ l, scan_info fs path = .ok l ∧
        l.map Prod.fst = ["edition", "console_serial", "mobo_serial",
          "model_number", "wifi_mac", "lan_mac"] ∧
        List.lookup "edition" l = some ed ∧
        List.lookup "console_serial" l =
          some (_ascii (readList f.data SERIAL_OFFSET LEN_SERIAL)) ∧
        List.lookup "mobo_serial" l =
          some (_ascii (readList f.data MOBO_SN_OFFSET LEN_MOBO_SN)) ∧
        List.lookup "model_number" l =
          some (_ascii (readList f.data VARIANT_OFFSET LEN_MODEL)) ∧
        (∃ wm, List.lookup "wifi_mac" l = some wm ∧
          wm = hexUpper (readList f.data WIFI_MAC_OFFSET LEN_MAC) ∧
          wm.length = 12 ∧ ∀ c ∈ wm.data, isUpperHexChar c) ∧
        (∃ lm, List.lookup "lan_mac" l = some lm ∧
          lm = hexUpper (readList f.data LAN_MAC_OFFSET LEN_MAC) ∧
          lm.length = 12 ∧ ∀ c ∈ lm.data, isUpperHexChar c)) ∧
    scan_info fsDisc "nor.bin" =
      Except.ok [("edition", "disc"), ("console_serial", "PS5TESTSERIAL123"),
        ("mobo_serial", ""), ("model_number", ""),
        ("wifi_mac", "A1B2C3D4E5F6"), ("lan_mac", "FFFFFFFFFFFF")] := by
  constructor
  · intro fs path f ed hf hsz hbytes hdet
    refine ⟨_, scan_info_big fs path f ed hf hsz hdet, rfl, rfl, rfl, rfl, rfl,
      ⟨_, rfl, rfl, ?_, ?_⟩, ⟨_, rfl, rfl, ?_, ?_⟩⟩
    · rw [hexUpper_length, readList_length]
      rfl
    · exact hexUpper_chars _ (by
        intro b hbm
        obtain ⟨k, _, rfl⟩ := readList_mem _ _ _ _ hbm
        exact hbytes _)
    · rw [hexUpper_length, readList_length]
      rfl
    · exact hexUpper_chars _ (by
        intro b hbm
        obtain ⟨k, _, rfl⟩ := readList_mem _ _ _ _ hbm
        exact hbytes _)
  · decide

/-- Witness for C3's universally quantified part at the concrete disc
image. -/
theorem scan_info_shape_witness :
    fsDisc "nor.bin" = some imgDisc ∧
    FIELD_TABLE_END ≤ imgDisc.size ∧
    (∀ i, imgDisc.data i < 256) ∧
    _detect_edition imgDisc = Except.ok "disc" ∧
    (∃ l, scan_info fsDisc "nor.bin" = .ok l ∧
      l.map Prod.fst = ["edition", "console_serial", "mobo_serial",
        "model_number", "wifi_mac", "lan_mac"] ∧
      List.lookup "edition" l = some "disc" ∧
      List.lookup "console_serial" l =
        some (_ascii (readList imgDisc.data SERIAL_OFFSET LEN_SERIAL)) ∧
      List.lookup "mobo_serial" l =
        some (_ascii (readList imgDisc.data MOBO_SN_OFFSET LEN_MOBO_SN)) ∧
      List.lookup "model_number" l =
        some (_ascii (readList imgDisc.data VARIANT_OFFSET LEN_MODEL)) ∧
      (∃ wm, List.lookup "wifi_mac" l = some wm ∧
        wm = hexUpper (readList imgDisc.data WIFI_MAC_OFFSET LEN_MAC) ∧
        wm.length = 12 ∧ ∀ c ∈ wm.data, isUpperHexChar c) ∧
      (∃ lm, List.lookup "lan_mac" l = some lm ∧
        lm = hexUpper (readList imgDisc.data LAN_MAC_OFFSET LEN_MAC) ∧
        lm.length = 12 ∧ ∀ c ∈ lm.data, isUpperHexChar c)) :=
  ⟨by simp [fsDisc], by decide,
   by
     intro i
     show discData i < 256
     unfold discData
     repeat' apply ite_lt
     all_goals decide,
   by decide,
   scan_info_shape.1 fsDisc "nor.bin" imgDisc "disc" (by simp [fsDisc])
     (by decide)
     (by
       intro i
       show discData i < 256
       unfold discData
       repeat' apply ite_lt
       all_goals decide)
     (by decide)⟩

-- ---------------------------------------------------------------------------
-- C4: detector precedence
-- ---------------------------------------------------------------------------

/-- An image whose primary flag window holds no known pattern but whose
secondary window holds the disc flag (all other bytes erased). -/
def secData : Nat → Nat := fun i =>
  if i = 0x1C7030 then 0x22 else if i = 0x1C7031 then 0x02
  else if i = 0x1C7032 then 0x01 else if i = 0x1C7033 then 0x01
  else 0xFF

/-- Image with only the secondary flag set. -/
def imgSec : MFile := ⟨0x1C73C6, secData⟩

/-- C4: the detector reads the primary flag offset first and, on a match
with any known pattern, returns that kind whatever the secondary window
holds (so the primary wins when the two disagree); otherwise it matches the
secondary window; if neither matches, it returns `"unknown"`. -/
theorem detect_edition_spec :
    (∀ (f : MFile) (pat : List Nat) (name : String),
      OFFSET_VERSION_1 + LEN_VERSION ≤ f.size →
      (name, pat) ∈ EDITION_TO_FLAG →
      readList f.data OFFSET_VERSION_1 LEN_VERSION = pat →
      _detect_edition f = .ok name) ∧
    (∀ (f : MFile) (pat : List Nat) (name : String),
      OFFSET_VERSION_2 + LEN_VERSION ≤ f.size →
      readList f.data OFFSET_VERSION_1 LEN_VERSION ∉
        EDITION_TO_FLAG.map Prod.snd →
      (name, pat) ∈ EDITION_TO_FLAG →
      readList f.data OFFSET_VERSION_2 LEN_VERSION = pat →
      _detect_edition f = .ok name) ∧
    (∀ f : MFile,
      OFFSET_VERSION_2 + LEN_VERSION ≤ f.size →
      readList f.data OFFSET_VERSION_1 LEN_VERSION ∉
        EDITION_TO_FLAG.map Prod.snd →
      readList f.data OFFSET_VERSION_2 LEN_VERSION ∉
        EDITION_TO_FLAG.map Prod.snd →
      _detect_edition f = .ok "unknown") := by
  refine ⟨?_, ?_, ?_⟩
  · intro f pat name hsz hmem hread
    simp only [EDITION_TO_FLAG, List.mem_cons, List.not_mem_nil, or_false,
      Prod.mk.injEq] at hmem
    simp only [_detect_edition, _read_full f OFFSET_VERSION_1 LEN_VERSION hsz,
      hread]
    rcases hmem with ⟨rfl, rfl⟩ | ⟨rfl, rfl⟩ | ⟨rfl, rfl⟩
    · rw [if_neg (by decide), if_neg (by decide), if_pos rfl]
    · rw [if_neg (by decide), if_pos rfl]
    · rw [if_pos rfl]
  · intro f pat name hsz hn1 hmem hread
    have hb1 : OFFSET_VERSION_1 + LEN_VERSION ≤ f.size := by
      simp only [OFFSET_VERSION_1, OFFSET_VERSION_2, LEN_VERSION] at *
      omega
    have hd1 : readList f.data OFFSET_VERSION_1 LEN_VERSION ≠ FLAG_DIGITAL :=
      fun h => hn1 (by rw [h]; decide)
    have hd2 : readList f.data OFFSET_VERSION_1 LEN_VERSION ≠ FLAG_DISC :=
      fun h => hn1 (by rw [h]; decide)
    have hd3 : readList f.data OFFSET_VERSION_1 LEN_VERSION ≠ FLAG_SLIM :=
      fun h => hn1 (by rw [h]; decide)
    simp only [EDITION_TO_FLAG, List.mem_cons, List.not_mem_nil, or_false,
      Prod.mk.injEq] at hmem
    simp only [_detect_edition, _read_full f OFFSET_VERSION_1 LEN_VERSION hb1,
      _read_full f OFFSET_VERSION_2 LEN_VERSION hsz,
      if_neg hd1, if_neg hd2, if_neg hd3, hread]
    rcases hmem with ⟨rfl, rfl⟩ | ⟨rfl, rfl⟩ | ⟨rfl, rfl⟩
    · rw [if_neg (by decide), if_neg (by decide), if_pos rfl]
    · rw [if_neg (by decide), if_pos rfl]
    · rw [if_pos rfl]
  · intro f hsz hn1 hn2
    have hb1 : OFFSET_VERSION_1 + LEN_VERSION ≤ f.size := by
      simp only [OFFSET_VERSION_1, OFFSET_VERSION_2, LEN_VERSION] at *
      omega
    have hd1 : readList f.data OFFSET_VERSION_1 LEN_VERSION ≠ FLAG_DIGITAL :=
      fun h => hn1 (by rw [h]; decide)
    have hd2 : readList f.data OFFSET_VERSION_1 LEN_VERSION ≠ FLAG_DISC :=
      fun h => hn1 (by rw [h]; decide)
    have hd3 : readList f.data OFFSET_VERSION_1 LEN_VERSION ≠ FLAG_SLIM :=
      fun h => hn1 (by rw [h]; decide)
    have he1 : readList f.data OFFSET_VERSION_2 LEN_VERSION ≠ FLAG_DIGITAL :=
      fun h => hn2 (by rw [h]; decide)
    have he2 : readList f.data OFFSET_VERSION_2 LEN_VERSION ≠ FLAG_DISC :=
      fun h => hn2 (by rw [h]; decide)
    have he3 : readList f.data OFFSET_VERSION_2 LEN_VERSION ≠ FLAG_SLIM :=
      fun h => hn2 (by rw [h]; decide)
    simp only [_detect_edition, _read_full f OFFSET_VERSION_1 LEN_VERSION hb1,
      _read_full f OFFSET_VERSION_2 LEN_VERSION hsz,
      if_neg hd1, if_neg hd2, if_neg hd3, if_neg he1, if_neg he2, if_neg he3]

/-- Witness for C4: the disc image matches on the primary window (with
erased bytes at the secondary holding a second disc flag, so this also
covers the "primary wins" reading since part 1 never looks at the
secondary); the secondary-only image matches on its secondary window; the
all-erased image is `"unknown"`. -/
theorem detect_edition_spec_witness :
    OFFSET_VERSION_1 + LEN_VERSION ≤ imgDisc.size ∧
    ("disc", FLAG_DISC) ∈ EDITION_TO_FLAG ∧
    readList imgDisc.data OFFSET_VERSION_1 LEN_VERSION = FLAG_DISC ∧
    _detect_edition imgDisc = Except.ok "disc" ∧
    readList imgSec.data OFFSET_VERSION_1 LEN_VERSION ∉
      EDITION_TO_FLAG.map Prod.snd ∧
    readList imgSec.data OFFSET_VERSION_2 LEN_VERSION = FLAG_DISC ∧
    _detect_edition imgSec = Except.ok "disc" ∧
    readList imgShort.data OFFSET_VERSION_2 LEN_VERSION ∉
      EDITION_TO_FLAG.map Prod.snd ∧
    _detect_edition imgShort = Except.ok "unknown" :=
  ⟨by decide, by decide, by decide,
   detect_edition_spec.1 imgDisc FLAG_DISC "disc" (by decide) (by decide)
     (by decide),
   by decide, by decide,
   detect_edition_spec.2.1 imgSec FLAG_DISC "disc" (by decide) (by decide)
     (by decide) (by decide),
   by decide,
   detect_edition_spec.2.2 imgShort (by decide) (by decide) (by decide)⟩

-- ---------------------------------------------------------------------------
-- C5 / C10: validation order and case-insensitivity
-- ---------------------------------------------------------------------------

theorem lookup_editions_none (x : String)
    (hx : x ∉ (["slim", "disc", "digital"] : List String)) :
    List.lookup x EDITION_TO_FLAG = none := by
  simp only [List.mem_cons, List.not_mem_nil, or_false, not_or] at hx
  obtain ⟨h1, h2, h3⟩ := hx
  have hb1 : (x == "slim") = false := beq_eq_false_iff_ne.mpr h1
  have hb2 : (x == "disc") = false := beq_eq_false_iff_ne.mpr h2
  have hb3 : (x == "digital") = false := beq_eq_false_iff_ne.mpr h3
  simp [EDITION_TO_FLAG, List.lookup, hb1, hb2, hb3]

theorem lookup_editions_some (x : String)
    (hx : x ∈ (["slim", "disc", "digital"] : List String)) :
    (List.lookup x EDITION_TO_FLAG).isSome = true := by
  simp only [List.mem_cons, List.not_mem_nil, or_false] at hx
  rcases hx with rfl | rfl | rfl
  · decide
  · decide
  · decide

/-- C5: every mutator validates its argument before touching any file: an
edition whose lowercasing is not a known name, or a serial of out-of-range
length, yields the invalid-argument `ValueError` with the filesystem
returned exactly as given — for every filesystem, so no file is read,
created or modified. -/
theorem mutators_validate_first :
    (∀ (fs : FS) (src e : String) (dst : Option String),
      str_lower e ∉ (["slim", "disc", "digital"] : List String) →
      convert_edition fs src e dst = (fs, some .invalidArgument)) ∧
    (∀ (fs : FS) (src s : String) (dst : Option String),
      ¬(1 ≤ s.length ∧ s.length ≤ 17) →
      set_console_serial fs src s dst = (fs, some .invalidArgument)) ∧
    (∀ (fs : FS) (src s : String) (dst : Option String),
      ¬(1 ≤ s.length ∧ s.length ≤ 16) →
      set_mobo_serial fs src s dst = (fs, some .invalidArgument)) := by
  refine ⟨?_, ?_, ?_⟩
  · intro fs src e dst he
    simp [convert_edition, lookup_editions_none (str_lower e) he]
  · intro fs src s dst hs
    simp only [set_console_serial, LEN_SERIAL]
    rw [if_pos hs]
  · intro fs src s dst hs
    simp only [set_mobo_serial, LEN_MOBO_SN]
    rw [if_pos hs]

/-- Witness for C5: a bogus edition name, an empty console serial and an
18-character console serial and 17-character motherboard serial are all
rejected with the filesystem untouched. -/
theorem mutators_validate_first_witness :
    str_lower "matte" ∉ (["slim", "disc", "digital"] : List String) ∧
    convert_edition fsDisc "nor.bin" "matte" none =
      (fsDisc, some .invalidArgument) ∧
    ¬(1 ≤ ("" : String).length ∧ ("" : String).length ≤ 17) ∧
    set_console_serial fsDisc "nor.bin" "" none =
      (fsDisc, some .invalidArgument) ∧
    ¬(1 ≤ ("SERIALNUMBER123456" : String).length ∧
        ("SERIALNUMBER123456" : String).length ≤ 17) ∧
    set_console_serial fsDisc "nor.bin" "SERIALNUMBER123456" none =
      (fsDisc, some .invalidArgument) ∧
    ¬(1 ≤ ("MOBOSERIAL1234567" : String).length ∧
        ("MOBOSERIAL1234567" : String).length ≤ 16) ∧
    set_mobo_serial fsDisc "nor.bin" "MOBOSERIAL1234567" none =
      (fsDisc, some .invalidArgument) :=
  ⟨by decide,
   mutators_validate_first.1 fsDisc "nor.bin" "matte" none (by decide),
   by decide,
   mutators_validate_first.2.1 fsDisc "nor.bin" "" none (by decide),
   by decide,
   mutators_validate_first.2.1 fsDisc "nor.bin" "SERIALNUMBER123456" none
     (by decide),
   by decide,
   mutators_validate_first.2.2 fsDisc "nor.bin" "MOBOSERIAL1234567" none
     (by decide)⟩

theorem lower_char_idem (c : Char) :
    lower_char (lower_char c) = lower_char c := by
  unfold lower_char
  by_cases h : 65 ≤ c.toNat ∧ c.toNat ≤ 90
  · rw [if_pos h, if_neg]
    rw [char_toNat_ofNat (c.toNat + 32) (by omega)]
    omega
  · rw [if_neg h, if_neg h]

theorem str_lower_idem (s : String) : str_lower (str_lower s) = str_lower s := by
  simp only [str_lower, List.map_map]
  congr 1
  apply List.map_congr_left
  intro c _
  exact lower_char_idem c

theorem ensure_err (fs : FS) (src : String) (d : Option String) (e : Err)
    (h : _ensure_target fs src d = .error e) : e = .imageNotFound := by
  cases d with
  | none => simp [_ensure_target] at h
  | some d =>
    simp only [_ensure_target] at h
    by_cases hsd : src = d
    · rw [if_pos hsd] at h
      exact absurd h (by simp)
    · rw [if_neg hsd] at h
      cases hs : fs src with
      | none =>
        rw [hs] at h
        injection h with h
        exact h.symm
      | some f =>
        rw [hs] at h
        exact absurd h (by simp)

theorem _write_err (f : MFile) (offset : Nat) (payload : List Nat) (e : Err)
    (h : _write f offset payload = .error e) : e = .outOfRange := by
  unfold _write at h
  by_cases hc : f.size < offset + payload.length
  · rw [if_pos hc] at h
    injection h with h
    exact h.symm
  · rw [if_neg hc] at h
    exact absurd h (by simp)

/-- `_convert_on` never raises the invalid-argument error: its failures are
missing files or out-of-range accesses only. -/
theorem convert_on_no_invalid (fs1 : FS) (tgt edition : String) :
    (_convert_on fs1 tgt edition).2 ≠ some Err.invalidArgument := by
  unfold _convert_on
  repeat' split
  all_goals try simp
  · rename_i heq
    have h2 := detect_err _ _ heq
    subst h2
    simp
  · repeat' split
    all_goals try simp
    · rename_i heq
      have h2 := _write_err _ _ _ _ heq
      subst h2
      simp
    · rename_i heq
      have h2 := _write_err _ _ _ _ heq
      subst h2
      simp

/-- C10: `convert_edition` is case-insensitive in its edition argument —
it behaves identically on `e` and on the lowercasing of `e`; a string whose
lowercase form is not a known edition name is rejected with the
invalid-argument error, and one whose lowercase form is a known name is
never rejected with that error. -/
theorem convert_edition_case_insensitive :
    (∀ (fs : FS) (src e : String) (dst : Option String),
      convert_edition fs src e dst = convert_edition fs src (str_lower e) dst) ∧
    (∀ (fs : FS) (src e : String) (dst : Option String),
      str_lower e ∉ (["slim", "disc", "digital"] : List String) →
      convert_edition fs src e dst = (fs, some .invalidArgument)) ∧
    (∀ (fs : FS) (src e : String) (dst : Option String),
      str_lower e ∈ (["slim", "disc", "digital"] : List String) →
      (convert_edition fs src e dst).2 ≠ some .invalidArgument) := by
  refine ⟨?_, ?_, ?_⟩
  · intro fs src e dst
    simp only [convert_edition, _convert_on, str_lower_idem]
  · intro fs src e dst he
    simp [convert_edition, lookup_editions_none (str_lower e) he]
  · intro fs src e dst he
    have hsome := lookup_editions_some (str_lower e) he
    simp only [convert_edition]
    split
    · rename_i hn
      rw [Option.isNone_iff_eq_none] at hn
      rw [hn] at hsome
      simp at hsome
    · split
      · rename_i heq
        have h2 := ensure_err _ _ _ _ heq
        subst h2
        simp
      · exact convert_on_no_invalid _ _ _

/-- Witness for C10 at mixed-case, unknown and uppercase edition names. -/
theorem convert_edition_case_insensitive_witness :
    convert_edition fsDisc "nor.bin" "DiGiTaL" none =
      convert_edition fsDisc "nor.bin" (str_lower "DiGiTaL") none ∧
    str_lower "MaTTe" ∉ (["slim", "disc", "digital"] : List String) ∧
    convert_edition fsDisc "nor.bin" "MaTTe" none =
      (fsDisc, some .invalidArgument) ∧
    str_lower "DISC" ∈ (["slim", "disc", "digital"] : List String) ∧
    (convert_edition fsDisc "nor.bin" "DISC" none).2 ≠
      some .invalidArgument :=
  ⟨convert_edition_case_insensitive.1 fsDisc "nor.bin" "DiGiTaL" none,
   by decide,
   convert_edition_case_insensitive.2.1 fsDisc "nor.bin" "MaTTe" none
     (by decide),
   by decide,
   convert_edition_case_insensitive.2.2 fsDisc "nor.bin" "DISC" none
     (by decide)⟩

-- ---------------------------------------------------------------------------
-- C6: copy-before-edit
-- ---------------------------------------------------------------------------

theorem convert_on_frame (fs1 : FS) (tgt edition : String) (p : String)
    (hp : p ≠ tgt) : (_convert_on fs1 tgt edition).1 p = fs1 p := by
  unfold _convert_on
  repeat' split
  all_goals try simp [updateFS, hp]
  repeat' split
  all_goals simp [updateFS, hp]

theorem set_console_on_frame (fs1 : FS) (tgt : String) (sb : List Nat)
    (p : String) (hp : p ≠ tgt) :
    (_set_console_on fs1 tgt sb).1 p = fs1 p := by
  unfold _set_console_on
  repeat' split
  all_goals simp [updateFS, hp]

theorem set_mobo_on_frame (fs1 : FS) (tgt : String) (sb : List Nat)
    (p : String) (hp : p ≠ tgt) :
    (_set_mobo_on fs1 tgt sb).1 p = fs1 p := by
  unfold _set_mobo_on
  repeat' split
  all_goals simp [updateFS, hp]

/-- With a distinct destination, `_ensure_target` copies the source file to
the destination. -/
theorem ensure_target_distinct (fs : FS) (src d : String) (f : MFile)
    (hne : src ≠ d) (hsrc : fs src = some f) :
    _ensure_target fs src (some d) = .ok (updateFS fs d f, d) := by
  simp [_ensure_target, if_neg hne, hsrc]

/-- C6: with a destination distinct from the source, every mutator touches
only the destination — the source file (and every other path) is unchanged
whether the call succeeds or fails — and, once validation passes and the
source exists, running a mutator with a distinct destination is exactly
copying the source to the destination first and then editing in place. -/
theorem mutators_copy_then_edit (fs : FS) (src d e s1 s2 : String) (f : MFile)
    (hne : src ≠ d) (hd : d ≠ "") :
    (∀ p, p ≠ d → (convert_edition fs src e (some d)).1 p = fs p) ∧
    (convert_edition fs src e (some d)).1 src = fs src ∧
    (∀ p, p ≠ d → (set_console_serial fs src s1 (some d)).1 p = fs p) ∧
    (set_console_serial fs src s1 (some d)).1 src = fs src ∧
    (∀ p, p ≠ d → (set_mobo_serial fs src s2 (some d)).1 p = fs p) ∧
    (set_mobo_serial fs src s2 (some d)).1 src = fs src ∧
    ((List.lookup (str_lower e) EDITION_TO_FLAG).isSome → fs src = some f →
      convert_edition fs src e (some d) =
        convert_edition (updateFS fs d f) d e none) ∧
    ((1 ≤ s1.length ∧ s1.length ≤ 17) → (encodeLatin1 s1).isSome →
      fs src = some f →
      set_console_serial fs src s1 (some d) =
        set_console_serial (updateFS fs d f) d s1 none) ∧
    ((1 ≤ s2.length ∧ s2.length ≤ 16) → (encodeLatin1 s2).isSome →
      fs src = some f →
      set_mobo_serial fs src s2 (some d) =
        set_mobo_serial (updateFS fs d f) d s2 none) := by
  have hnd : normDst (some d) = some d := by simp [normDst, hd]
  have hcf : ∀ p, p ≠ d → (convert_edition fs src e (some d)).1 p = fs p := by
    intro p hp
    unfold convert_edition
    split
    · rfl
    · rw [hnd]
      cases hs : fs src with
      | none => simp [_ensure_target, if_neg hne, hs]
      | some f0 =>
        rw [ensure_target_distinct fs src d f0 hne hs]
        rw [convert_on_frame (updateFS fs d f0) d e p hp]
        simp [updateFS, hp]
  have hsf : ∀ p, p ≠ d → (set_console_serial fs src s1 (some d)).1 p = fs p := by
    intro p hp
    unfold set_console_serial
    split
    · rfl
    · split
      · rfl
      · rw [hnd]
        cases hs : fs src with
        | none => simp [_ensure_target, if_neg hne, hs]
        | some f0 =>
          rw [ensure_target_distinct fs src d f0 hne hs]
          rw [set_console_on_frame (updateFS fs d f0) d _ p hp]
          simp [updateFS, hp]
  have hmf : ∀ p, p ≠ d → (set_mobo_serial fs src s2 (some d)).1 p = fs p := by
    intro p hp
    unfold set_mobo_serial
    split
    · rfl
    · split
      · rfl
      · rw [hnd]
        cases hs : fs src with
        | none => simp [_ensure_target, if_neg hne, hs]
        | some f0 =>
          rw [ensure_target_distinct fs src d f0 hne hs]
          rw [set_mobo_on_frame (updateFS fs d f0) d _ p hp]
          simp [updateFS, hp]
  refine ⟨hcf, hcf src hne, hsf, hsf src hne, hmf, hmf src hne, ?_, ?_, ?_⟩
  · intro hsome hsrc
    obtain ⟨tf, hlk⟩ := Option.isSome_iff_exists.mp hsome
    simp only [convert_edition, hnd, hlk, Option.isNone_some,
      Bool.false_eq_true, if_false,
      ensure_target_distinct fs src d f hne hsrc]
    have hens2 : _ensure_target (updateFS fs d f) d (normDst none) =
        .ok (updateFS fs d f, d) := rfl
    rw [hens2]
  · intro hv henc hsrc
    obtain ⟨bs, hbs⟩ := Option.isSome_iff_exists.mp henc
    simp only [set_console_serial, LEN_SERIAL, hnd, hbs,
      if_neg (not_not_intro hv),
      ensure_target_distinct fs src d f hne hsrc]
    have hens2 : _ensure_target (updateFS fs d f) d (normDst none) =
        .ok (updateFS fs d f, d) := rfl
    rw [hens2]
  · intro hv henc hsrc
    obtain ⟨bs, hbs⟩ := Option.isSome_iff_exists.mp henc
    simp only [set_mobo_serial, LEN_MOBO_SN, hnd, hbs,
      if_neg (not_not_intro hv),
      ensure_target_distinct fs src d f hne hsrc]
    have hens2 : _ensure_target (updateFS fs d f) d (normDst none) =
        .ok (updateFS fs d f, d) := rfl
    rw [hens2]

/-- Witness for C6: converting to digital with a distinct destination leaves
the source untouched and equals copy-then-in-place-edit. -/
theorem mutators_copy_then_edit_witness :
    ("nor.bin" : String) ≠ "copy.bin" ∧ ("copy.bin" : String) ≠ "" ∧
    (convert_edition fsDisc "nor.bin" "digital" (some "copy.bin")).1 "nor.bin" =
      fsDisc "nor.bin" ∧
    (set_console_serial fsDisc "nor.bin" "NEWCONSOLESN" (some "copy.bin")).1
      "nor.bin" = fsDisc "nor.bin" ∧
    convert_edition fsDisc "nor.bin" "digital" (some "copy.bin") =
      convert_edition (updateFS fsDisc "copy.bin" imgDisc) "copy.bin"
        "digital" none :=
  ⟨by decide, by decide,
   (mutators_copy_then_edit fsDisc "nor.bin" "copy.bin" "digital"
     "NEWCONSOLESN" "NEWMOBO123" imgDisc (by decide) (by decide)).2.1,
   (mutators_copy_then_edit fsDisc "nor.bin" "copy.bin" "digital"
     "NEWCONSOLESN" "NEWMOBO123" imgDisc (by decide) (by decide)).2.2.2.1,
   (mutators_copy_then_edit fsDisc "nor.bin" "copy.bin" "digital"
     "NEWCONSOLESN" "NEWMOBO123" imgDisc (by decide) (by decide)).2.2.2.2.2.2.1
     (by decide) (by simp [fsDisc])⟩

-- ---------------------------------------------------------------------------
-- C7: idempotent no-op conversion
-- ---------------------------------------------------------------------------

/-- C7: when the detected edition already equals the (lowercased) requested
target, `convert_edition` performs no edit beyond the copy step: the result
is exactly the copy-only filesystem with no error, and repeating the call on
the result (now in place) returns it unchanged again. -/
theorem convert_edition_noop (fs : FS) (src edition : String)
    (dst : Option String) (f : MFile)
    (hsrc : fs src = some f)
    (hlook : (List.lookup (str_lower edition) EDITION_TO_FLAG).isSome)
    (hdet : _detect_edition f = .ok (str_lower edition)) :
    convert_edition fs src edition dst = (copyFS fs src dst f, none) ∧
    convert_edition (copyFS fs src dst f) (targetPath src dst) edition none =
      (copyFS fs src dst f, none) := by
  obtain ⟨tf, hlk⟩ := Option.isSome_iff_exists.mp hlook
  obtain ⟨hens, htgt⟩ := ensure_target_ok fs src dst f hsrc
  have h0 : ¬(f.size = 0) := by
    have := detect_ok_size f _ hdet
    simp only [OFFSET_VERSION_1] at this
    omega
  constructor
  · simp only [convert_edition, hlk, Option.isNone_some, Bool.false_eq_true,
      if_false, hens]
    simp only [_convert_on, htgt, hdet]
    rw [if_neg h0]
    simp
  · have hens2 : _ensure_target (copyFS fs src dst f) (targetPath src dst)
        (normDst none) = .ok (copyFS fs src dst f, targetPath src dst) := rfl
    simp only [convert_edition, hlk, Option.isNone_some, Bool.false_eq_true,
      if_false, hens2]
    simp only [_convert_on, htgt, hdet]
    rw [if_neg h0]
    simp

/-- Witness for C7: converting the disc image to "disc" with a distinct
destination is a pure copy, and stable under repetition. -/
theorem convert_edition_noop_witness :
    fsDisc "nor.bin" = some imgDisc ∧
    (List.lookup (str_lower "disc") EDITION_TO_FLAG).isSome = true ∧
    _detect_edition imgDisc = Except.ok (str_lower "disc") ∧
    (convert_edition fsDisc "nor.bin" "disc" (some "copy.bin") =
      (copyFS fsDisc "nor.bin" (some "copy.bin") imgDisc, none) ∧
    convert_edition (copyFS fsDisc "nor.bin" (some "copy.bin") imgDisc)
        (targetPath "nor.bin" (some "copy.bin")) "disc" none =
      (copyFS fsDisc "nor.bin" (some "copy.bin") imgDisc, none)) :=
  ⟨by simp [fsDisc], by decide, by decide,
   convert_edition_noop fsDisc "nor.bin" "disc" (some "copy.bin") imgDisc
     (by simp [fsDisc]) (by decide) (by decide)⟩

-- ---------------------------------------------------------------------------
-- C8: ASCII field round-trip
-- ---------------------------------------------------------------------------

theorem encodeLatin1_some (s : String) (bs : List Nat)
    (h : encodeLatin1 s = some bs) :
    bs = s.data.map Char.toNat ∧ ∀ c ∈ s.data, c.toNat < 256 := by
  unfold encodeLatin1 at h
  by_cases hc : s.data.all (fun c => c.toNat < 256)
  · rw [if_pos hc] at h
    injection h with h
    refine ⟨h.symm, ?_⟩
    intro c hcm
    have := List.all_eq_true.mp hc c hcm
    simpa using this
  · rw [if_neg hc] at h
    exact absurd h (by simp)

theorem ljust_length (l : List Nat) (n fill : Nat) (h : l.length ≤ n) :
    (ljust l n fill).length = n := by
  simp only [ljust, List.length_append, List.length_replicate]
  omega

theorem dropWhile_replicate_append (p : Nat → Bool) (k a : Nat)
    (l : List Nat) (hp : p a = true) :
    List.dropWhile p (List.replicate k a ++ l) = List.dropWhile p l := by
  induction k with
  | zero => simp
  | succ k ih => simp [List.replicate_succ, List.dropWhile, hp, ih]

/-- Decoding the padded encoding of a latin-1 string returns the string,
provided its last character is not itself a padding byte. -/
theorem ascii_ljust_roundtrip (s : String) (bs : List Nat) (n : Nat)
    (henc : encodeLatin1 s = some bs) (hlen : bs.length ≤ n)
    (hlast : ∀ c, s.data.getLast? = some c → c.toNat ≠ 0 ∧ c.toNat ≠ 255) :
    _ascii (ljust bs n 0) = s := by
  obtain ⟨rfl, hchars⟩ := encodeLatin1_some s bs henc
  unfold _ascii ljust
  rw [List.reverse_append, List.reverse_replicate]
  rw [dropWhile_replicate_append _ _ _ _ (by decide)]
  have hdrop : List.dropWhile (fun b => b == 0 || b == 255)
      (s.data.map Char.toNat).reverse = (s.data.map Char.toNat).reverse := by
    cases hrev : (s.data.map Char.toNat).reverse with
    | nil => rfl
    | cons c0 rest =>
      have hhead : (s.data.map Char.toNat).getLast? = some c0 := by
        rw [← List.head?_reverse, hrev]
        rfl
      rw [List.getLast?_map] at hhead
      cases hgl : s.data.getLast? with
      | none => rw [hgl] at hhead; exact absurd hhead (by simp)
      | some c =>
        rw [hgl] at hhead
        rw [show Option.map Char.toNat (some c) = some c.toNat from rfl] at hhead
        injection hhead with hhead
        obtain ⟨hc0, hc255⟩ := hlast c hgl
        have hfalse : ((c0 == 0 || c0 == 255) : Bool) = false := by
          rw [← hhead]
          simp [hc0, hc255]
        rw [List.dropWhile_cons_of_neg (by simp [hfalse])]
  rw [hdrop, List.reverse_reverse, List.map_map]
  have hmapid : (s.data.map (Char.ofNat ∘ Char.toNat)) = s.data :=
    calc s.data.map (Char.ofNat ∘ Char.toNat)
        = s.data.map id := List.map_congr_left (fun c _ => Char.ofNat_toNat c)
      _ = s.data := List.map_id s.data
  rw [hmapid]

/-- Successful `set_console_serial` writes the padded serial at the console
serial offset of the resolved target. -/
theorem set_console_ok (fs : FS) (src s : String) (dst : Option String)
    (bs : List Nat) (f : MFile)
    (hv : 1 ≤ s.length ∧ s.length ≤ 17)
    (henc : encodeLatin1 s = some bs)
    (hsrc : fs src = some f)
    (hsize : SERIAL_OFFSET + LEN_SERIAL ≤ f.size) :
    set_console_serial fs src s dst =
      (updateFS (copyFS fs src dst f) (targetPath src dst)
        ⟨f.size, writeAt f.data SERIAL_OFFSET (ljust bs LEN_SERIAL 0)⟩,
       none) := by
  obtain ⟨hens, htgt⟩ := ensure_target_ok fs src dst f hsrc
  have hbl : bs.length ≤ 17 := by
    obtain ⟨rfl, _⟩ := encodeLatin1_some s bs henc
    simp only [List.length_map]
    exact hv.2
  have hlj : (ljust bs LEN_SERIAL 0).length = LEN_SERIAL :=
    ljust_length bs LEN_SERIAL 0 (by simpa [LEN_SERIAL] using hbl)
  have hw : _write f SERIAL_OFFSET (ljust bs LEN_SERIAL 0) =
      .ok ⟨f.size, writeAt f.data SERIAL_OFFSET (ljust bs LEN_SERIAL 0)⟩ :=
    _write_ok _ _ _ (by rw [hlj]; exact hsize)
  have h0 : ¬(f.size = 0) := by
    simp only [SERIAL_OFFSET, LEN_SERIAL] at hsize
    omega
  have hvc : ¬¬(1 ≤ s.length ∧ s.length ≤ LEN_SERIAL) :=
    not_not_intro (by simpa [LEN_SERIAL] using hv)
  simp only [set_console_serial, if_neg hvc, henc, hens]
  simp only [_set_console_on, htgt, h0, if_false, hw]

/-- Successful `set_mobo_serial` writes the padded serial at the motherboard
serial offset of the resolved target. -/
theorem set_mobo_ok (fs : FS) (src s : String) (dst : Option String)
    (bs : List Nat) (f : MFile)
    (hv : 1 ≤ s.length ∧ s.length ≤ 16)
    (henc : encodeLatin1 s = some bs)
    (hsrc : fs src = some f)
    (hsize : MOBO_SN_OFFSET + LEN_MOBO_SN ≤ f.size) :
    set_mobo_serial fs src s dst =
      (updateFS (copyFS fs src dst f) (targetPath src dst)
        ⟨f.size, writeAt f.data MOBO_SN_OFFSET (ljust bs LEN_MOBO_SN 0)⟩,
       none) := by
  obtain ⟨hens, htgt⟩ := ensure_target_ok fs src dst f hsrc
  have hbl : bs.length ≤ 16 := by
    obtain ⟨rfl, _⟩ := encodeLatin1_some s bs henc
    simp only [List.length_map]
    exact hv.2
  have hlj : (ljust bs LEN_MOBO_SN 0).length = LEN_MOBO_SN :=
    ljust_length bs LEN_MOBO_SN 0 (by simpa [LEN_MOBO_SN] using hbl)
  have hw : _write f MOBO_SN_OFFSET (ljust bs LEN_MOBO_SN 0) =
      .ok ⟨f.size, writeAt f.data MOBO_SN_OFFSET (ljust bs LEN_MOBO_SN 0)⟩ :=
    _write_ok _ _ _ (by rw [hlj]; exact hsize)
  have h0 : ¬(f.size = 0) := by
    simp only [MOBO_SN_OFFSET, LEN_MOBO_SN] at hsize
    omega
  have hvc : ¬¬(1 ≤ s.length ∧ s.length ≤ LEN_MOBO_SN) :=
    not_not_intro (by simpa [LEN_MOBO_SN] using hv)
  simp only [set_mobo_serial, if_neg hvc, henc, hens]
  simp only [_set_mobo_on, htgt, h0, if_false, hw]

/-- Counterexample to C8 as stated: the one-character serial `"\x00"` is
accepted (length 1), but scanning back gives the empty string, because
decoding strips trailing `0x00` padding — the round-trip fails for strings
ending in a padding byte. -/
theorem serial_roundtrip_counterexample :
    (1 ≤ ("\x00" : String).length ∧ ("\x00" : String).length ≤ 17) ∧
    (set_console_serial fsDisc "nor.bin" "\x00" none).2 = none ∧
    scanField (set_console_serial fsDisc "nor.bin" "\x00" none).1 "nor.bin"
      "console_serial" = some "" ∧
    ("" : String) ≠ "\x00" :=
  ⟨by decide, by decide, by decide, by decide⟩

/-- C8 amended: decoding the padded encoding returns the value for every
latin-1 field value that fits the field and does not end in a padding byte
(`0x00`/`0xFF`); consequently, for every such console serial of length
1..17, `set_console_serial` followed by `scan_info` returns the serial. -/
theorem serial_roundtrip :
    (∀ (s : String) (bs : List Nat) (n : Nat),
      encodeLatin1 s = some bs → bs.length ≤ n →
      (∀ c, s.data.getLast? = some c → c.toNat ≠ 0 ∧ c.toNat ≠ 255) →
      _ascii (ljust bs n 0) = s) ∧
    (∀ (fs : FS) (src : String) (dst : Option String) (s : String)
        (bs : List Nat) (f : MFile),
      1 ≤ s.length → s.length ≤ 17 →
      encodeLatin1 s = some bs →
      (∀ c, s.data.getLast? = some c → c.toNat ≠ 0 ∧ c.toNat ≠ 255) →
      fs src = some f → FIELD_TABLE_END ≤ f.size →
      scanField (set_console_serial fs src s dst).1 (targetPath src dst)
        "console_serial" = some s) := by
  refine ⟨ascii_ljust_roundtrip, ?_⟩
  intro fs src dst s bs f h1 h17 henc hlast hsrc hsize
  have hser : SERIAL_OFFSET + LEN_SERIAL ≤ f.size := by
    simp only [SERIAL_OFFSET, LEN_SERIAL, FIELD_TABLE_END, WIFI_MAC_OFFSET,
      LEN_MAC] at *
    omega
  rw [set_console_ok fs src s dst bs f ⟨h1, h17⟩ henc hsrc hser]
  have hbl : bs.length ≤ 17 := by
    obtain ⟨rfl, _⟩ := encodeLatin1_some s bs henc
    simp only [List.length_map]
    exact h17
  have hlj : (ljust bs LEN_SERIAL 0).length = LEN_SERIAL :=
    ljust_length bs LEN_SERIAL 0 (by simpa [LEN_SERIAL] using hbl)
  set f' : MFile :=
    ⟨f.size, writeAt f.data SERIAL_OFFSET (ljust bs LEN_SERIAL 0)⟩ with hf'
  have htgt' : (updateFS (copyFS fs src dst f) (targetPath src dst) f')
      (targetPath src dst) = some f' := by
    simp [updateFS]
  obtain ⟨ed, hdet⟩ := detect_ok f'
    (by
      show OFFSET_VERSION_2 + LEN_VERSION ≤ f.size
      simp only [OFFSET_VERSION_2, LEN_VERSION, FIELD_TABLE_END,
        WIFI_MAC_OFFSET, LEN_MAC] at *
      omega)
  have hscan := scan_info_big
    (updateFS (copyFS fs src dst f) (targetPath src dst) f')
    (targetPath src dst) f' ed htgt'
    (by
      show FIELD_TABLE_END ≤ f.size
      exact hsize) hdet
  simp only [scanField, hscan]
  have hread : readList f'.data SERIAL_OFFSET LEN_SERIAL =
      ljust bs LEN_SERIAL 0 := by
    show readList (writeAt f.data SERIAL_OFFSET (ljust bs LEN_SERIAL 0))
      SERIAL_OFFSET LEN_SERIAL = ljust bs LEN_SERIAL 0
    nth_rewrite 2 [← hlj]
    exact readList_writeAt_self f.data SERIAL_OFFSET (ljust bs LEN_SERIAL 0)
  have hlook : List.lookup "console_serial"
      ([("edition", ed),
        ("console_serial", _ascii (readList f'.data SERIAL_OFFSET LEN_SERIAL)),
        ("mobo_serial", _ascii (readList f'.data MOBO_SN_OFFSET LEN_MOBO_SN)),
        ("model_number", _ascii (readList f'.data VARIANT_OFFSET LEN_MODEL)),
        ("wifi_mac", hexUpper (readList f'.data WIFI_MAC_OFFSET LEN_MAC)),
        ("lan_mac", hexUpper (readList f'.data LAN_MAC_OFFSET LEN_MAC))] :
        List (String × String)) =
      some (_ascii (readList f'.data SERIAL_OFFSET LEN_SERIAL)) := rfl
  rw [hlook, hread,
    ascii_ljust_roundtrip s bs LEN_SERIAL henc
      (by simpa [LEN_SERIAL] using hbl) hlast]

/-- Witness for the amended C8: a 12-character serial round-trips through
`set_console_serial` and `scan_info` on the concrete disc image. -/
theorem serial_roundtrip_witness :
    1 ≤ ("NEWCONSOLESN" : String).length ∧
    ("NEWCONSOLESN" : String).length ≤ 17 ∧
    encodeLatin1 "NEWCONSOLESN" =
      some [78, 69, 87, 67, 79, 78, 83, 79, 76, 69, 83, 78] ∧
    fsDisc "nor.bin" = some imgDisc ∧
    FIELD_TABLE_END ≤ imgDisc.size ∧
    scanField (set_console_serial fsDisc "nor.bin" "NEWCONSOLESN" none).1
      (targetPath "nor.bin" none) "console_serial" = some "NEWCONSOLESN" :=
  ⟨by decide, by decide, by decide, by simp [fsDisc], by decide,
   serial_roundtrip.2 fsDisc "nor.bin" none "NEWCONSOLESN"
     [78, 69, 87, 67, 79, 78, 83, 79, 76, 69, 83, 78] imgDisc
     (by decide) (by decide) (by decide)
     (by
       intro c hc
       rw [show ("NEWCONSOLESN" : String).data.getLast? = some 'N' from rfl]
         at hc
       injection hc with hc
       subst hc
       decide)
     (by simp [fsDisc]) (by decide)⟩

-- ---------------------------------------------------------------------------
-- C9: serial writes touch only their own field
-- ---------------------------------------------------------------------------

theorem readList_writeAt_full (d : Nat → Nat) (offset n : Nat) (p : List Nat)
    (hp : p.length = n) : readList (writeAt d offset p) offset n = p := by
  subst hp
  exact readList_writeAt_self d offset p

/-- C9: `set_console_serial` rewrites exactly the 17 bytes at `0x1C7210`
(with the encoded zero-padded value) and `set_mobo_serial` exactly the 16
bytes at `0x1C7200`; every byte outside the written field is unchanged, so
the detector result and the mobo/model/MAC (resp. console/model/MAC) windows
are untouched. -/
theorem set_serial_frame (fs : FS) (src : String) (dst : Option String)
    (s1 s2 : String) (bs1 bs2 : List Nat) (f : MFile)
    (hv1 : 1 ≤ s1.length ∧ s1.length ≤ 17)
    (henc1 : encodeLatin1 s1 = some bs1)
    (hv2 : 1 ≤ s2.length ∧ s2.length ≤ 16)
    (henc2 : encodeLatin1 s2 = some bs2)
    (hsrc : fs src = some f) (hsize : FIELD_TABLE_END ≤ f.size) :
    (∃ f', set_console_serial fs src s1 dst =
        (updateFS (copyFS fs src dst f) (targetPath src dst) f', none) ∧
      f'.size = f.size ∧
      (∀ i, i < SERIAL_OFFSET ∨ SERIAL_OFFSET + LEN_SERIAL ≤ i →
        f'.data i = f.data i) ∧
      readList f'.data SERIAL_OFFSET LEN_SERIAL = ljust bs1 LEN_SERIAL 0 ∧
      _detect_edition f' = _detect_edition f ∧
      readList f'.data MOBO_SN_OFFSET LEN_MOBO_SN =
        readList f.data MOBO_SN_OFFSET LEN_MOBO_SN ∧
      readList f'.data VARIANT_OFFSET LEN_MODEL =
        readList f.data VARIANT_OFFSET LEN_MODEL ∧
      readList f'.data WIFI_MAC_OFFSET LEN_MAC =
        readList f.data WIFI_MAC_OFFSET LEN_MAC ∧
      readList f'.data LAN_MAC_OFFSET LEN_MAC =
        readList f.data LAN_MAC_OFFSET LEN_MAC) ∧
    (∃ f', set_mobo_serial fs src s2 dst =
        (updateFS (copyFS fs src dst f) (targetPath src dst) f', none) ∧
      f'.size = f.size ∧
      (∀ i, i < MOBO_SN_OFFSET ∨ MOBO_SN_OFFSET + LEN_MOBO_SN ≤ i →
        f'.data i = f.data i) ∧
      readList f'.data MOBO_SN_OFFSET LEN_MOBO_SN = ljust bs2 LEN_MOBO_SN 0 ∧
      _detect_edition f' = _detect_edition f ∧
      readList f'.data SERIAL_OFFSET LEN_SERIAL =
        readList f.data SERIAL_OFFSET LEN_SERIAL ∧
      readList f'.data VARIANT_OFFSET LEN_MODEL =
        readList f.data VARIANT_OFFSET LEN_MODEL ∧
      readList f'.data WIFI_MAC_OFFSET LEN_MAC =
        readList f.data WIFI_MAC_OFFSET LEN_MAC ∧
      readList f'.data LAN_MAC_OFFSET LEN_MAC =
        readList f.data LAN_MAC_OFFSET LEN_MAC) := by
  have hb2 : OFFSET_VERSION_2 + LEN_VERSION ≤ f.size := by
    simp only [OFFSET_VERSION_2, LEN_VERSION, FIELD_TABLE_END,
      WIFI_MAC_OFFSET, LEN_MAC] at *
    omega
  constructor
  · have hbl : bs1.length ≤ 17 := by
      obtain ⟨rfl, _⟩ := encodeLatin1_some s1 bs1 henc1
      simp only [List.length_map]
      exact hv1.2
    have hlj : (ljust bs1 LEN_SERIAL 0).length = LEN_SERIAL :=
      ljust_length bs1 LEN_SERIAL 0 (by simpa [LEN_SERIAL] using hbl)
    refine ⟨⟨f.size, writeAt f.data SERIAL_OFFSET (ljust bs1 LEN_SERIAL 0)⟩,
      set_console_ok fs src s1 dst bs1 f hv1 henc1 hsrc
        (by
          simp only [SERIAL_OFFSET, LEN_SERIAL, FIELD_TABLE_END,
            WIFI_MAC_OFFSET, LEN_MAC] at *
          omega),
      rfl, ?_, readList_writeAt_full _ _ _ _ hlj, ?_, ?_, ?_, ?_, ?_⟩
    · intro i hi
      rcases hi with hi | hi
      · exact writeAt_lt _ _ _ _ hi
      · apply writeAt_ge
        rw [hlj]
        exact hi
    · apply detect_congr
      · rfl
      · exact readList_writeAt_disjoint _ _ _ _ _
          (Or.inl (by norm_num [OFFSET_VERSION_1, LEN_VERSION, SERIAL_OFFSET]))
      · exact readList_writeAt_disjoint _ _ _ _ _
          (Or.inl (by norm_num [OFFSET_VERSION_2, LEN_VERSION, SERIAL_OFFSET]))
      · exact hb2
    · exact readList_writeAt_disjoint _ _ _ _ _
        (Or.inl (by norm_num [MOBO_SN_OFFSET, LEN_MOBO_SN, SERIAL_OFFSET]))
    · exact readList_writeAt_disjoint _ _ _ _ _
        (Or.inr (by rw [hlj]; norm_num [VARIANT_OFFSET, LEN_SERIAL, SERIAL_OFFSET]))
    · exact readList_writeAt_disjoint _ _ _ _ _
        (Or.inr (by rw [hlj]; norm_num [WIFI_MAC_OFFSET, LEN_SERIAL, SERIAL_OFFSET]))
    · exact readList_writeAt_disjoint _ _ _ _ _
        (Or.inl (by norm_num [LAN_MAC_OFFSET, LEN_MAC, SERIAL_OFFSET]))
  · have hbl : bs2.length ≤ 16 := by
      obtain ⟨rfl, _⟩ := encodeLatin1_some s2 bs2 henc2
      simp only [List.length_map]
      exact hv2.2
    have hlj : (ljust bs2 LEN_MOBO_SN 0).length = LEN_MOBO_SN :=
      ljust_length bs2 LEN_MOBO_SN 0 (by simpa [LEN_MOBO_SN] using hbl)
    refine ⟨⟨f.size, writeAt f.data MOBO_SN_OFFSET (ljust bs2 LEN_MOBO_SN 0)⟩,
      set_mobo_ok fs src s2 dst bs2 f hv2 henc2 hsrc
        (by
          simp only [MOBO_SN_OFFSET, LEN_MOBO_SN, FIELD_TABLE_END,
            WIFI_MAC_OFFSET, LEN_MAC] at *
          omega),
      rfl, ?_, readList_writeAt_full _ _ _ _ hlj, ?_, ?_, ?_, ?_, ?_⟩
    · intro i hi
      rcases hi with hi | hi
      · exact writeAt_lt _ _ _ _ hi
      · apply writeAt_ge
        rw [hlj]
        exact hi
    · apply detect_congr
      · rfl
      · exact readList_writeAt_disjoint _ _ _ _ _
          (Or.inl (by norm_num [OFFSET_VERSION_1, LEN_VERSION, MOBO_SN_OFFSET]))
      · exact readList_writeAt_disjoint _ _ _ _ _
          (Or.inl (by norm_num [OFFSET_VERSION_2, LEN_VERSION, MOBO_SN_OFFSET]))
      · exact hb2
    · exact readList_writeAt_disjoint _ _ _ _ _
        (Or.inr (by rw [hlj]; norm_num [SERIAL_OFFSET, LEN_MOBO_SN, MOBO_SN_OFFSET]))
    · exact readList_writeAt_disjoint _ _ _ _ _
        (Or.inr (by rw [hlj]; norm_num [VARIANT_OFFSET, LEN_MOBO_SN, MOBO_SN_OFFSET]))
    · exact readList_writeAt_disjoint _ _ _ _ _
        (Or.inr (by rw [hlj]; norm_num [WIFI_MAC_OFFSET, LEN_MOBO_SN, MOBO_SN_OFFSET]))
    · exact readList_writeAt_disjoint _ _ _ _ _
        (Or.inl (by norm_num [LAN_MAC_OFFSET, LEN_MAC, MOBO_SN_OFFSET]))

/-- Witness for C9 at concrete console and motherboard serials on the disc
image. -/
theorem set_serial_frame_witness :
    (1 ≤ ("NEWCONSOLESN" : String).length ∧
      ("NEWCONSOLESN" : String).length ≤ 17) ∧
    encodeLatin1 "NEWCONSOLESN" =
      some [78, 69, 87, 67, 79, 78, 83, 79, 76, 69, 83, 78] ∧
    (1 ≤ ("NEWMOBO123" : String).length ∧
      ("NEWMOBO123" : String).length ≤ 16) ∧
    encodeLatin1 "NEWMOBO123" =
      some [78, 69, 87, 77, 79, 66, 79, 49, 50, 51] ∧
    fsDisc "nor.bin" = some imgDisc ∧
    FIELD_TABLE_END ≤ imgDisc.size ∧
    (∃ f', set_console_serial fsDisc "nor.bin" "NEWCONSOLESN" none =
        (updateFS (copyFS fsDisc "nor.bin" none imgDisc)
          (targetPath "nor.bin" none) f', none) ∧
      f'.size = imgDisc.size ∧
      (∀ i, i < SERIAL_OFFSET ∨ SERIAL_OFFSET + LEN_SERIAL ≤ i →
        f'.data i = imgDisc.data i) ∧
      readList f'.data SERIAL_OFFSET LEN_SERIAL =
        ljust [78, 69, 87, 67, 79, 78, 83, 79, 76, 69, 83, 78] LEN_SERIAL 0 ∧
      _detect_edition f' = _detect_edition imgDisc ∧
      readList f'.data MOBO_SN_OFFSET LEN_MOBO_SN =
        readList imgDisc.data MOBO_SN_OFFSET LEN_MOBO_SN ∧
      readList f'.data VARIANT_OFFSET LEN_MODEL =
        readList imgDisc.data VARIANT_OFFSET LEN_MODEL ∧
      readList f'.data WIFI_MAC_OFFSET LEN_MAC =
        readList imgDisc.data WIFI_MAC_OFFSET LEN_MAC ∧
      readList f'.data LAN_MAC_OFFSET LEN_MAC =
        readList imgDisc.data LAN_MAC_OFFSET LEN_MAC) :=
  ⟨by decide, by decide, by decide, by decide, by simp [fsDisc], by decide,
   (set_serial_frame fsDisc "nor.bin" none "NEWCONSOLESN" "NEWMOBO123"
     [78, 69, 87, 67, 79, 78, 83, 79, 76, 69, 83, 78]
     [78, 69, 87, 77, 79, 66, 79, 49, 50, 51] imgDisc
     (by decide) (by decide) (by decide) (by decide)
     (by simp [fsDisc]) (by decide)).1⟩
